import Mathlib

/-!
Verification of the Position & Strategy Management Engine of the
`Trading-Bot` repository (`Trading-Bot/app.py`, class `TradingBot`).

Shallow embedding conventions:
* Python floats (prices, volumes, point counts) are modelled as `ℚ`.
* Python strings (position comments / tags) are modelled as `List Char`;
  string literals are written as `"...".data` so they evaluate.
* Broker calls made by the engine are modelled as emitted `Action` values
  (the decision-level view: `close_position`, `modify_position_sl`,
  `modify_position_tp` and `order_send` for an open each become one action).
* Fallible collaborator calls (`mt5.positions_get`, historical-data fetch,
  the indicator signal) are modelled as `Except`/`Option`-valued inputs
  carried in an environment record; a Python `try/except` wrapper becomes a
  `match` that maps `.error` to the fallback value.
* `datetime.now(...)` is modelled by passing the current weekday / hour /
  minute explicitly.
Every definition is translated from `app.py`; line numbers are given in the
doc comments.
-/

namespace TradingBotSpec

/-- A broker-reported open position (the fields of an MT5 position used by
`app.py`): ticket, symbol, type (0 = buy, 1 = sell), volume, open price,
current price, stop loss, take profit, profit, swap and the comment string
that carries the tag. -/
structure Position where
  ticket : Nat
  symbol : List Char
  ptype : Nat
  volume : ℚ
  price_open : ℚ
  price_current : ℚ
  sl : ℚ
  tp : ℚ
  profit : ℚ
  swap : ℚ
  comment : List Char
deriving DecidableEq, Inhabited

/-- A broker action emitted by the engine: the decision-level view of the
`order_send` calls made by `close_position`, `modify_position_sl`,
`modify_position_tp` and the open-order requests. -/
inductive Action where
  | closePosition (ticket : Nat)
  | modifyStopLoss (ticket : Nat) (price : ℚ)
  | modifyTakeProfit (ticket : Nat) (price : ℚ)
  | openPosition (isBuy : Bool) (volume sl tp : ℚ) (comment : List Char)
deriving DecidableEq

/-- The ticket targeted by an action (`none` for an open, which creates a
fresh position instead of touching an existing one). -/
def Action.target : Action → Option Nat
  | .closePosition t => some t
  | .modifyStopLoss t _ => some t
  | .modifyTakeProfit t _ => some t
  | .openPosition _ _ _ _ _ => none

/-- The settings of a `TradingBot` instance used by the position-management
engine (`app.py` lines 39-113, `TradingBot.__init__`). -/
structure Config where
  lot_size : ℚ
  sl_points : ℚ
  tp_points : ℚ
  trade_direction : List Char
  weekend_closing : Bool
  positions_per_setup : Nat
  positive_sl_points : ℚ
  breakeven_trigger_points : ℚ
  enable_progressive : Bool
  enable_drawdown_layering : Bool
  drawdown_layer_threshold : ℚ
  positions_per_layer : Nat
  minimum_profit_per_position : ℚ
  max_layers : Nat
  max_drawdown_points : ℚ
  enable_trailing_sl : Bool
  trailing_tp_points : ℚ
  trailing_sl_points : ℚ
  dynamic_checkpoints : Nat
  prop_firm_mode : Bool
  comment_off : Bool
  strategy_type : List Char
  reentry_count : Nat
deriving DecidableEq

/-- Python's `s.split(sep)` on a character list: `""` splits to `[""]`,
separators at the ends produce empty fields. -/
def splitOnSep (sep : Char) : List Char → List (List Char)
  | [] => [[]]
  | c :: rest =>
    let r := splitOnSep sep rest
    if c = sep then [] :: r
    else
      match r with
      | h :: t => (c :: h) :: t
      | [] => [[c]]

/-- Python's `s.startswith(p)` on character lists. -/
def strStarts (s p : List Char) : Bool :=
  List.isPrefixOf p s

/-- Python's `str(n)` for a nonnegative integer, as a character list. -/
def natStr (n : Nat) : List Char :=
  Nat.toDigits 10 n

/-- The value of a decimal digit character (code point minus 48), `none`
for a non-digit. -/
def digitVal (c : Char) : Option Nat :=
  if c.isDigit then some (c.toNat - 48) else none

/-- Accumulator loop reading a run of decimal digits. -/
def parseNatGo : List Char → Nat → Option Nat
  | [], acc => some acc
  | c :: rest, acc =>
    match digitVal c with
    | some d => parseNatGo rest (acc * 10 + d)
    | none => none

/-- Parse of a nonempty unsigned decimal numeral. -/
def parseNat : List Char → Option Nat
  | [] => none
  | l => parseNatGo l 0

/-- Python's `int(s)` for an optionally-signed decimal string, returning
`none` where Python raises `ValueError` (used for the position number parsed
out of a comment, `app.py` lines 860-867). -/
def parseInt (s : List Char) : Option Int :=
  match s with
  | '-' :: rest => (parseNat rest).map (fun n => -(n : Int))
  | _ => (parseNat s).map (fun n => (n : Int))

/-- `TradingBot.is_weekend_trading_hours` (`app.py` lines 267-277): true on
Saturday (weekday 5), Sunday (6) and Monday (0) before 08:00, in the bot's
local calendar. -/
def isWeekendTradingHours (weekday hourOfDay : Nat) : Bool :=
  (weekday == 5) || (weekday == 6) || (weekday == 0 && hourOfDay < 8)

/-- The collaborator inputs consumed by `TradingBot.should_open_trade`
(`app.py` lines 279-341): the `mt5.positions_get` result (`.error` models a
raised exception, `.ok none` models the `None` return), the current local
weekday and hour, the historical-data fetch (`none` models both a `None`
dataframe and its length), and the indicator entry signal (long, short). -/
structure EntryEnv where
  positionsGet : Except String (Option (List Position))
  weekday : Nat
  hourOfDay : Nat
  histLen : Option Nat
  entrySignal : Except String (Bool × Bool)

/-- `total_profit` accumulation of `should_open_trade` (`app.py` lines
295-297): the sum of `position.profit + position.swap`. -/
def totalProfit (l : List Position) : ℚ :=
  l.foldl (fun acc p => acc + p.profit + p.swap) 0

/-- The body of `TradingBot.should_open_trade` (`app.py` lines 281-336),
i.e. the code inside the `try:`.  `.error` marks the places where the Python
body raises: a failed collaborator call, the `self.is_trading_hours()` call
(no such method exists on `TradingBot` in `app.py`, so `prop_firm_mode`
raises `AttributeError`), and the `current_position_count` print on the
signal path (that local is only assigned in the `exit_signal_or_max_tp`
branch, so other strategies raise `NameError` there). -/
def shouldOpenTradeBody (cfg : Config) (env : EntryEnv) : Except String Bool :=
  match env.positionsGet with
  | .error e => .error e
  | .ok posOpt =>
    let positions := posOpt.getD []
    if cfg.strategy_type = "exit_signal_or_max_tp".data ∧
        cfg.reentry_count ≤ positions.length then .ok false
    else if cfg.strategy_type = "exit_signal_or_max_tp".data ∧
        0 < positions.length ∧ 0 ≤ totalProfit positions then .ok false
    else if cfg.weekend_closing = true ∧
        isWeekendTradingHours env.weekday env.hourOfDay = true then .ok false
    else if cfg.prop_firm_mode = true then
      .error "AttributeError: TradingBot has no attribute is_trading_hours"
    else if (match env.histLen with | none => true | some n => n < 100) then .ok false
    else
      match env.entrySignal with
      | .error e => .error e
      | .ok (longCond, shortCond) =>
        let canBuy := (cfg.trade_direction = "BOTH".data ∨
          cfg.trade_direction = "LONG".data) ∧ longCond = true
        let canSell := (cfg.trade_direction = "BOTH".data ∨
          cfg.trade_direction = "SHORT".data) ∧ shortCond = true
        if canBuy ∨ canSell then
          if cfg.strategy_type = "exit_signal_or_max_tp".data then .ok true
          else .error "NameError: name current_position_count is not defined"
        else .ok false

/-- `TradingBot.should_open_trade` (`app.py` lines 279-341): the body
wrapped in `try: ... except Exception: return False`. -/
def shouldOpenTrade (cfg : Config) (env : EntryEnv) : Bool :=
  match shouldOpenTradeBody cfg env with
  | .ok b => b
  | .error _ => false

/-- A bid/ask quote (`mt5.symbol_info_tick`). -/
structure Tick where
  bid : ℚ
  ask : ℚ
deriving DecidableEq

/-- The `exit_signal_or_max_tp` arm of `TradingBot.execute_trade_setup`
(`app.py` lines 343-401), at the action level: the entry gate
`should_open_trade` followed by a single market-open request whose comment
is `EXIT_{setup_id}_{position_number}`. -/
def executeTradeSetupExitSignal (cfg : Config) (env : EntryEnv) (isBuy : Bool)
    (tick : Tick) (pointValue : ℚ) (setupId : List Char) : List Action :=
  if shouldOpenTrade cfg env = false then []
  else
    let currentPrice := if isBuy then tick.ask else tick.bid
    let slPrice := if isBuy then currentPrice - cfg.sl_points * pointValue
      else currentPrice + cfg.sl_points * pointValue
    let tpPrice := if isBuy then currentPrice + cfg.tp_points * pointValue
      else currentPrice - cfg.tp_points * pointValue
    let existingCount :=
      match env.positionsGet with
      | .ok (some l) => l.length
      | _ => 0
    let positionNumber := existingCount + 1
    let comment := if cfg.comment_off then ([] : List Char)
      else "EXIT_".data ++ setupId ++ "_".data ++ natStr positionNumber
    [Action.openPosition isBuy cfg.lot_size slPrice tpPrice comment]

/-- The checkpoint loop of `TradingBot.manage_trailing_sl` (`app.py` lines
1210-1215): `current_checkpoint` is set to every `i ∈ [1, n]` with
`profit_points ≥ checkpoint_size * i`, so it ends as the last (= largest)
such `i`, or `0` if none. -/
def currentCheckpoint (n : Nat) (size profitPoints : ℚ) : Nat :=
  (List.range n).foldl
    (fun (cp i : Nat) => if size * ((i : ℚ) + 1) ≤ profitPoints then i + 1 else cp) 0

/-- The lock-in computation of `manage_trailing_sl` (`app.py` lines
1221-1241) expressed in points from the open price: `0` at checkpoint ≤ 1
(checkpoint 1 moves the stop to breakeven), and otherwise
`(cp−1)·size·0.8` plus, when `progress_to_next / size > 0.3`, the
additional `progress_to_next · 0.8 · 0.5`, where
`progress_to_next = profit − size·(cp−1)` exactly as in line 1232. -/
def lockInOf (n : Nat) (size profitPoints : ℚ) : ℚ :=
  let cp := currentCheckpoint n size profitPoints
  if cp ≤ 1 then 0
  else
    let progressToNext := profitPoints - size * ((cp : ℚ) - 1)
    let pct := progressToNext / size
    ((cp : ℚ) - 1) * size * 0.8 +
      (if 0.3 < pct then progressToNext * 0.8 * 0.5 else 0)

/-- The stop price `manage_trailing_sl` computes before the improvement
gate (`app.py` lines 1196-1242): `none` when no checkpoint is reached,
otherwise `open ± lockInPoints · pointValue` (`+` for a buy, `-` for a
sell); checkpoint 1 gives exactly the open price. -/
def trailingComputedSL (cfg : Config) (pointValue : ℚ) (isBuy : Bool)
    (openPrice currentPrice : ℚ) : Option ℚ :=
  let priceDiff := if isBuy then currentPrice - openPrice else openPrice - currentPrice
  let profitPoints := priceDiff / pointValue
  let size := cfg.trailing_tp_points / (cfg.dynamic_checkpoints : ℚ)
  let cp := currentCheckpoint cfg.dynamic_checkpoints size profitPoints
  if cp = 0 then none
  else
    let lock := lockInOf cfg.dynamic_checkpoints size profitPoints
    some (if isBuy then openPrice + lock * pointValue
      else openPrice - lock * pointValue)

/-- One position's step of `TradingBot.manage_trailing_sl` (`app.py` lines
1184-1251): positions whose comment is not a `TSL_` tag with at least three
`_`-separated parts are skipped; otherwise the computed stop is emitted only
through the improvement gate of lines 1244-1251 (`pos.sl == 0` or strictly
better: greater for a buy, smaller for a sell). -/
def trailingNewSL (cfg : Config) (pointValue : ℚ) (pos : Position) : Option ℚ :=
  if ¬ (strStarts pos.comment "TSL_".data = true) then none
  else if (splitOnSep '_' pos.comment).length < 3 then none
  else
    let isBuy := pos.ptype = 0
    match trailingComputedSL cfg pointValue isBuy pos.price_open pos.price_current with
    | none => none
    | some v =>
      if isBuy then
        if pos.sl = 0 ∨ pos.sl < v then some v else none
      else
        if pos.sl = 0 ∨ v < pos.sl then some v else none

/-- `TradingBot.manage_trailing_sl` over a position list: each position
contributes the `modify_position_sl` call of lines 1248/1251 when its gate
passes. -/
def manageTrailingSL (cfg : Config) (pointValue : ℚ) (ps : List Position) : List Action :=
  ps.flatMap fun pos =>
    match trailingNewSL cfg pointValue pos with
    | some s => [Action.modifyStopLoss pos.ticket s]
    | none => []

/-- Iterated cycles of `manage_trailing_sl` on one position: each element of
`prices` is the position's current price on one cycle; an emitted modify is
applied by the broker, so the next cycle sees the updated stop loss.
Returns the emitted stop values in order. -/
def trailingRun (cfg : Config) (pointValue : ℚ) (pos : Position) :
    List ℚ → List ℚ
  | [] => []
  | c :: cs =>
    match trailingNewSL cfg pointValue { pos with price_current := c } with
    | some s =>
      s :: trailingRun cfg pointValue { pos with price_current := c, sl := s } cs
    | none => trailingRun cfg pointValue { pos with price_current := c } cs

/-- Dictionary-style grouping used by `manage_progressive_positions`
(`app.py` lines 838-846): append `p` to the group keyed `k`, preserving key
insertion order as a Python dict does. -/
def insertGroup (k : List Char) (p : Position) :
    List (List Char × List Position) → List (List Char × List Position)
  | [] => [(k, [p])]
  | (k', l) :: rest =>
    if k' = k then (k', l ++ [p]) :: rest
    else (k', l) :: insertGroup k p rest

/-- The `position_groups` dict of `manage_progressive_positions` (`app.py`
lines 838-846): positions whose comment does not start with `PROG_` or
`HYBRID_` are skipped; the rest are grouped by `comment.split('_')[1]`. -/
def progGroups (ps : List Position) : List (List Char × List Position) :=
  ps.foldl
    (fun acc p =>
      if ¬ (strStarts p.comment "PROG_".data = true) ∧
          ¬ (strStarts p.comment "HYBRID_".data = true) then acc
      else insertGroup ((splitOnSep '_' p.comment).getD 1 []) p acc)
    []

/-- `pos.position_number` as assigned by `manage_progressive_positions`
(`app.py` lines 858-869): `int(comment.split('_')[2])` when the comment has
at least three parts and parses, else `0`. -/
def positionNumberOf (p : Position) : Int :=
  let parts := splitOnSep '_' p.comment
  if 3 ≤ parts.length then (parseInt (parts.getD 2 [])).getD 0 else 0

/-- Stable insertion of `a` after every element whose key is ≤ its own:
used to model Python's stable `sorted(..., key=...)`. -/
def insertByNumber (a : Position) : List Position → List Position
  | [] => [a]
  | b :: t =>
    if positionNumberOf b ≤ positionNumberOf a then b :: insertByNumber a t
    else a :: b :: t

/-- Python's stable `sorted(group_positions, key=lambda p: p.position_number)`
(`app.py` line 872), modelled as a stable insertion sort. -/
def sortByNumber (l : List Position) : List Position :=
  l.foldl (fun acc a => insertByNumber a acc) []

/-- The per-position body of the progressive management loop (`app.py`
lines 879-925) for the position at sorted index `i`: first-position close
plus breakeven for the others, second-position close plus positive stop for
the third, and the independent breakeven-trigger check. -/
def progPositionActions (cfg : Config) (pointValue : ℚ)
    (sorted : List Position) (i : Nat) (pos : Position) : List Action :=
  let isBuy := pos.ptype = 0
  let priceDiff := if isBuy then pos.price_current - pos.price_open
    else pos.price_open - pos.price_current
  let profitPoints := priceDiff / pointValue
  let tpPerPosition := cfg.tp_points / (cfg.positions_per_setup : ℚ)
  let positionTp := tpPerPosition * (positionNumberOf pos : ℚ)
  (if i = 0 ∧ positionTp ≤ profitPoints then
    Action.closePosition pos.ticket ::
      ((sorted.enum.filter (fun q => 0 < q.1)).map
        (fun q => Action.modifyStopLoss q.2.ticket q.2.price_open))
  else if i = 1 ∧ positionTp ≤ profitPoints then
    Action.closePosition pos.ticket ::
      (if 2 < sorted.length then
        let third := sorted.getD 2 default
        let newSl := if third.ptype = 0 then
            third.price_open + cfg.positive_sl_points * pointValue
          else third.price_open - cfg.positive_sl_points * pointValue
        [Action.modifyStopLoss third.ticket newSl]
      else [])
  else []) ++
  (if cfg.breakeven_trigger_points ≤ profitPoints ∧ pos.sl = 0 then
    [Action.modifyStopLoss pos.ticket pos.price_open]
  else [])

/-- `TradingBot.manage_progressive_positions` (`app.py` lines 829-929):
group by setup id, skip groups with fewer than two positions, sort each
group by parsed position number, and run the management loop. -/
def manageProgressive (cfg : Config) (pointValue : ℚ) (ps : List Position) :
    List Action :=
  (progGroups ps).flatMap fun g =>
    if g.2.length < 2 then []
    else
      let sorted := sortByNumber g.2
      sorted.enum.flatMap fun q =>
        progPositionActions cfg pointValue sorted q.1 q.2

/-- Python's slice `s[:n]` for an `int` `n`: a nonnegative bound keeps the
first `n` characters, a negative bound drops `-n` characters from the end
(clamped at the empty string). -/
def pySlice (s : List Char) (n : Int) : List Char :=
  if 0 ≤ n then s.take n.toNat
  else s.take (s.length - (-n).toNat)

/-- The layer-position comment built by `TradingBot.add_layer` (`app.py`
lines 1069-1080): `f"{prefix}_{setup_id}_L{layer_num}_{position_num}"`,
truncated when longer than 31 characters by slicing `setup_id` to
`31 - len(f"{prefix}_X_L{layer_num}_{position_num}")` characters. -/
def addLayerComment (cmtHead setupId : List Char) (layerNum posNum : Nat) :
    List Char :=
  let comment := cmtHead ++ "_".data ++ setupId ++ "_L".data ++
    natStr layerNum ++ "_".data ++ natStr posNum
  if 31 < comment.length then
    let maxSetupIdLen : Int := 31 -
      ((cmtHead ++ "_X_L".data ++ natStr layerNum ++ "_".data ++ natStr posNum).length : Int)
    cmtHead ++ "_".data ++ pySlice setupId maxSetupIdLen ++ "_L".data ++
      natStr layerNum ++ "_".data ++ natStr posNum
  else comment

/-- The (possibly truncated) `setup_id` substring that `add_layer` embeds in
the comment: `setup_id` itself when the natural comment fits in 31
characters, otherwise `setup_id[:31 - len(f"{prefix}_X_L{layer}_{num}")]`. -/
def usedSetupId (cmtHead setupId : List Char) (layerNum posNum : Nat) :
    List Char :=
  let comment := cmtHead ++ "_".data ++ setupId ++ "_L".data ++
    natStr layerNum ++ "_".data ++ natStr posNum
  if 31 < comment.length then
    pySlice setupId (31 -
      ((cmtHead ++ "_X_L".data ++ natStr layerNum ++ "_".data ++ natStr posNum).length : Int))
  else setupId

/-- The open requests of `TradingBot.add_layer` (`app.py` lines 1035-1096)
at the action level: `positions_per_layer` market opens at the current
price, stop `current ∓ sl_points`, target `current ± minimum_profit`, with
the comment prefix `HYBRID`/`DDL` for `default_` setups and `ACE`
otherwise. -/
def addLayerActions (cfg : Config) (pointValue : ℚ) (tick : Tick)
    (setupId : List Char) (isBuy : Bool) (layerNum : Nat) : List Action :=
  let currentPrice := if isBuy then tick.ask else tick.bid
  let slPrice := if isBuy then currentPrice - cfg.sl_points * pointValue
    else currentPrice + cfg.sl_points * pointValue
  let tpPrice := if isBuy then
      currentPrice + cfg.minimum_profit_per_position * pointValue
    else currentPrice - cfg.minimum_profit_per_position * pointValue
  let cmtHead := if strStarts setupId "default_".data then
      (if cfg.enable_progressive ∧ cfg.enable_drawdown_layering then
        "HYBRID".data else "DDL".data)
    else "ACE".data
  (List.range cfg.positions_per_layer).map fun i =>
    Action.openPosition isBuy cfg.lot_size slPrice tpPrice
      (if cfg.comment_off then [] else addLayerComment cmtHead setupId layerNum (i + 1))

/-- The existing-layer token of a position as read by
`manage_drawdown_layers` (`app.py` lines 1008-1011): `comment.split('_')[3]`
when the comment has more than four fields and that field starts with
`'L'`. -/
def layerTokenOf (p : Position) : Option (List Char) :=
  let parts := splitOnSep '_' p.comment
  if 3 < parts.length ∧ strStarts (parts.getD 3 []) "L".data = true then
    some (parts.getD 3 [])
  else none

/-- Insertion into a Python-set modelled as a duplicate-free list. -/
def insertUnique (x : List Char) (l : List (List Char)) : List (List Char) :=
  if x ∈ l then l else l ++ [x]

/-- The `existing_layers` set of `manage_drawdown_layers` (`app.py` lines
1007-1011): the distinct layer tokens of the group (only its size is
used). -/
def existingLayersOf (group : List Position) : List (List Char) :=
  group.foldl
    (fun acc p =>
      match layerTokenOf p with
      | some tok => insertUnique tok acc
      | none => acc)
    []

/-- `required_layers` of `manage_drawdown_layers` (`app.py` lines
1013-1015): `min(ceil(drawdown_points / layer_threshold), max_layers)`. -/
def requiredLayersOf (cfg : Config) (ddPoints : ℚ) : Int :=
  min ⌈ddPoints / cfg.drawdown_layer_threshold⌉ (cfg.max_layers : Int)

/-- The per-setup layering decision of `manage_drawdown_layers` (`app.py`
lines 994-1026) as a function of the computed drawdown in points and the
existing-layer count: `none` when no layer is added this cycle, and
`some (existing + 1)` for the single layer number passed to `add_layer`. -/
def ddlLayerDecision (cfg : Config) (ddPoints : ℚ) (existingCount : Nat) :
    Option Nat :=
  if ddPoints ≤ 0 then none
  else if cfg.max_drawdown_points ≤ ddPoints then none
  else if requiredLayersOf cfg ddPoints ≤ (existingCount : Int) then none
  else if (existingCount : Int) + 1 ≤ requiredLayersOf cfg ddPoints then
    some (existingCount + 1)
  else none

/-- `TradingBot.adjust_take_profits` (`app.py` lines 1113-1154): per
direction, move every position's target to the volume-weighted average
entry plus (buy) or minus (sell) `minimum_profit_per_position` points. -/
def adjustTakeProfits (cfg : Config) (pointValue : ℚ) (ps : List Position) :
    List Action :=
  let buys := ps.filter fun p => p.ptype = 0
  let sells := ps.filter fun p => p.ptype = 1
  (if buys = [] then []
   else
    let totalVolume := buys.foldl (fun a p => a + p.volume) 0
    let avgEntry := (buys.foldl (fun a p => a + p.price_open * p.volume) 0) / totalVolume
    let minProfitPrice := avgEntry + cfg.minimum_profit_per_position * pointValue
    buys.map fun p => Action.modifyTakeProfit p.ticket minProfitPrice) ++
  (if sells = [] then []
   else
    let totalVolume := sells.foldl (fun a p => a + p.volume) 0
    let avgEntry := (sells.foldl (fun a p => a + p.price_open * p.volume) 0) / totalVolume
    let minProfitPrice := avgEntry - cfg.minimum_profit_per_position * pointValue
    sells.map fun p => Action.modifyTakeProfit p.ticket minProfitPrice)

/-- The per-direction grouping of `manage_drawdown_layers` (`app.py` lines
949-974).  The Python code appends every position to the direction's
`default_...` group and then moves it to the group keyed
`comment.split('_')[1]` when the comment has at least two fields and its
first field is one of `ACE`, `PROG`, `TSL`, `EXIT`; the net partition built
here in one pass is the same. -/
def ddlGroups (defaultKey : List Char) (ps : List Position) :
    List (List Char × List Position) :=
  ps.foldl
    (fun acc p =>
      let parts := splitOnSep '_' p.comment
      if 2 ≤ parts.length ∧
          (parts.getD 0 []) ∈ ["ACE".data, "PROG".data, "TSL".data, "EXIT".data] then
        insertGroup (parts.getD 1 []) p acc
      else acc.map (fun kl => if kl.1 = defaultKey then (kl.1, kl.2 ++ [p]) else kl))
    [(defaultKey, [])]

/-- The per-group body of `manage_drawdown_layers` (`app.py` lines
976-1029): volume-weighted average entry, drawdown against the bid (buy) or
ask (sell), and — when `ddlLayerDecision` fires — one `add_layer` batch
followed by `adjust_take_profits` on the group. -/
def ddlGroupActions (cfg : Config) (pointValue : ℚ) (tick : Tick)
    (isBuy : Bool) (setupId : List Char) (group : List Position) : List Action :=
  if group = [] then []
  else
    let totalVolume := group.foldl (fun a p => a + p.volume) 0
    let avgEntry := (group.foldl (fun a p => a + p.price_open * p.volume) 0) / totalVolume
    let currentPrice := if isBuy then tick.bid else tick.ask
    let dd := if isBuy then avgEntry - currentPrice else currentPrice - avgEntry
    let ddPoints := dd / pointValue
    (ddlLayerDecision cfg ddPoints (existingLayersOf group).length).elim []
      fun layerNum =>
        addLayerActions cfg pointValue tick setupId isBuy layerNum ++
          adjustTakeProfits cfg pointValue group

/-- `TradingBot.manage_drawdown_layers` (`app.py` lines 931-1033): split the
book by direction, group each direction, and process every group. -/
def manageDrawdownLayers (cfg : Config) (pointValue : ℚ) (tick : Tick)
    (symbol : List Char) (ps : List Position) : List Action :=
  if ps = [] then []
  else
    [(ps.filter (fun p => p.ptype = 0), true),
     (ps.filter (fun p => p.ptype = 1), false)].flatMap fun dir =>
      if dir.1 = [] then []
      else
        let defaultKey := "default_".data ++ symbol ++
          (if dir.2 then "_buy".data else "_sell".data)
        (ddlGroups defaultKey dir.1).flatMap fun g =>
          ddlGroupActions cfg pointValue tick dir.2 g.1 g.2

/-- Signed profit of a position in points, as computed throughout
`app.py` (e.g. line 1697): `(current − open)/point` for a buy and
`(open − current)/point` for a sell. -/
def profitPointsOf (pointValue : ℚ) (p : Position) : ℚ :=
  (if p.ptype = 0 then p.price_current - p.price_open
   else p.price_open - p.price_current) / pointValue

/-- The collaborator inputs of `manage_exit_signal_positions` (`app.py`
lines 1707-1733): the historical-data length and the WMI
EMA-crossed-midline signal per symbol (the signal computation itself is an
indicator concern outside the engine). -/
structure ExitEnv where
  histLenFor : List Char → Nat
  emaCrossedMidline : List Char → Bool

/-- The by-symbol grouping of `manage_exit_signal_positions` (`app.py`
lines 1686-1690). -/
def exitGroups (ps : List Position) : List (List Char × List Position) :=
  ps.foldl (fun acc p => insertGroup p.symbol p acc) []

/-- `TradingBot.manage_exit_signal_positions` (`app.py` lines 1679-1750):
per symbol, close every position once any reaches `tp_points` of profit;
otherwise, on an EMA midline cross, close each position whose profit
percentage `(profit_points · point)/open · 100` is at least `0.02`. -/
def manageExitSignal (cfg : Config) (pointValue : ℚ) (env : ExitEnv)
    (ps : List Position) : List Action :=
  if ps = [] then []
  else
    (exitGroups ps).flatMap fun g =>
      let symbolPositions := g.2
      let maxTpHit := symbolPositions.any fun p =>
        cfg.tp_points ≤ profitPointsOf pointValue p
      if maxTpHit then
        symbolPositions.map fun p => Action.closePosition p.ticket
      else if env.histLenFor g.1 < 2 then []
      else if env.emaCrossedMidline g.1 then
        symbolPositions.filterMap fun p =>
          let profitPercentage :=
            (profitPointsOf pointValue p * pointValue) / p.price_open * 100
          if 0.02 ≤ profitPercentage then some (Action.closePosition p.ticket)
          else none
      else []

/-- The drawdown-layering dispatch of `manage_positions` (`app.py` lines
800-810): in hybrid mode the whole book goes to `manage_drawdown_layers`,
otherwise only the `ACE_`/`DDL_` positions. -/
def ddDispatch (cfg : Config) (pointValue : ℚ) (tick : Tick)
    (symbol : List Char) (ps : List Position) : List Action :=
  if cfg.enable_drawdown_layering = true then
    if cfg.enable_progressive = true ∧ cfg.enable_drawdown_layering = true then
      manageDrawdownLayers cfg pointValue tick symbol ps
    else
      let ddPs := ps.filter fun p =>
        strStarts p.comment "ACE_".data || strStarts p.comment "DDL_".data
      if ¬ ddPs = [] then manageDrawdownLayers cfg pointValue tick symbol ddPs
      else []
  else []

/-- `TradingBot.manage_positions` (`app.py` lines 776-827): dispatch the
book to the strategy engines by comment prefix and configuration, then give
every position with a zero take profit a target `tp_points` from its open
price (lines 812-823). -/
def managePositions (cfg : Config) (pointValue : ℚ) (tick : Tick)
    (env : ExitEnv) (symbol : List Char) (ps : List Position) : List Action :=
  if ps = [] then []
  else
    (if cfg.strategy_type = "exit_signal_or_max_tp".data then
      manageExitSignal cfg pointValue env ps
    else []) ++
    (let progPs := ps.filter fun p =>
      strStarts p.comment "PROG_".data || strStarts p.comment "HYBRID_".data
    if ¬ progPs = [] ∧ (cfg.enable_progressive = true ∨
        (cfg.enable_progressive = true ∧ cfg.enable_drawdown_layering = true)) then
      manageProgressive cfg pointValue progPs
    else []) ++
    (let trailingPs := ps.filter fun p =>
      p.comment = [] || strStarts p.comment "TSL_".data
    if ¬ trailingPs = [] ∧ cfg.enable_trailing_sl = true then
      manageTrailingSL cfg pointValue trailingPs
    else []) ++
    ddDispatch cfg pointValue tick symbol ps ++
    (ps.filterMap fun p =>
      if p.tp = 0 then
        some (Action.modifyTakeProfit p.ticket
          (if p.ptype = 0 then p.price_open + cfg.tp_points * pointValue
           else p.price_open - cfg.tp_points * pointValue))
      else none)

/-- `TradingBot.check_weekend_closing` (`app.py` lines 1624-1677) for one
symbol: inside the Saturday 00:00-00:05 window, close every position whose
`profit` is strictly positive and keep the rest. -/
def checkWeekendClosing (weekday hourOfDay minuteOfHour : Nat)
    (ps : List Position) : List Action :=
  if weekday = 5 ∧ hourOfDay = 0 ∧ minuteOfHour < 5 then
    ps.filterMap fun p =>
      if 0 < p.profit then some (Action.closePosition p.ticket) else none
  else []

/-- The open loop of the progressive / hybrid / initial-drawdown arms of
`TradingBot.execute_trade_setup` (`app.py` lines 452-484, 538-570,
588-616): one broker outcome per requested leg (`some ticket` on success,
`none` on rejection).  A rejected leg is skipped with `continue` and the
loop simply moves on.  Returns the collected tickets and the tickets passed
to `close_position` during the loop (there are none). -/
def executeSetupOpenLoop : List (Option Nat) → List Nat × List Nat
  | [] => ([], [])
  | some t :: rest =>
    let r := executeSetupOpenLoop rest
    (t :: r.1, r.2)
  | none :: rest => executeSetupOpenLoop rest

/-- The open loop of `TradingBot.add_layer` (`app.py` lines 1068-1111) with
its accumulated `positions` list: on the first rejection every
previously-opened ticket is passed to `close_position` and the function
returns `[]`; otherwise all tickets are returned.  Result: (returned
tickets, tickets closed by the rollback). -/
def addLayerOpenGo : List (Option Nat) → List Nat → List Nat × List Nat
  | [], acc => (acc.reverse, [])
  | some t :: rest, acc => addLayerOpenGo rest (t :: acc)
  | none :: _, acc => ([], acc.reverse)

/-- `add_layer`'s open loop started with an empty `positions` list. -/
def addLayerOpenLoop (outcomes : List (Option Nat)) : List Nat × List Nat :=
  addLayerOpenGo outcomes []

/-! ## Helper lemmas -/

theorem shouldOpenTrade_true_iff (cfg : Config) (env : EntryEnv) :
    shouldOpenTrade cfg env = true ↔ shouldOpenTradeBody cfg env = .ok true := by
  unfold shouldOpenTrade
  cases h : shouldOpenTradeBody cfg env <;> simp

theorem totalProfit_nonneg_of (l : List Position)
    (h : ∀ p ∈ l, 0 ≤ p.profit + p.swap) : 0 ≤ totalProfit l := by
  have aux : ∀ (l' : List Position) (acc : ℚ), (∀ p ∈ l', 0 ≤ p.profit + p.swap) →
      0 ≤ acc → 0 ≤ l'.foldl (fun acc p => acc + p.profit + p.swap) acc := by
    intro l'
    induction l' with
    | nil => intro acc _ hacc; simpa using hacc
    | cons p t ih =>
      intro acc hall hacc
      simp only [List.foldl_cons]
      refine ih _ (fun q hq => hall q (List.mem_cons_of_mem _ hq)) ?_
      have := hall p (List.mem_cons_self ..)
      linarith
  exact aux l 0 h le_rfl

theorem exists_negative_of_totalProfit_neg (l : List Position)
    (h : totalProfit l < 0) : ∃ p ∈ l, p.profit + p.swap < 0 := by
  by_contra hc
  push_neg at hc
  exact absurd (totalProfit_nonneg_of l fun p hp => hc p hp) (not_le.mpr h)

/-! ## C10 -/

/-- C10: if any exception is raised while `should_open_trade` evaluates its
checks, the `except` clause returns `False` instead of propagating it: the
guard returns `true` only when its body ran to completion successfully, and
any body error yields `false` — the entry guard fails closed. -/
theorem entry_guard_fails_closed (cfg : Config) (env : EntryEnv) :
    (shouldOpenTrade cfg env = true → shouldOpenTradeBody cfg env = .ok true) ∧
    (∀ e, shouldOpenTradeBody cfg env = .error e → shouldOpenTrade cfg env = false) := by
  constructor
  · exact fun h => (shouldOpenTrade_true_iff cfg env).mp h
  · intro e he
    unfold shouldOpenTrade
    rw [he]

def c10cfg : Config :=
  { lot_size := 0.01, sl_points := 1000, tp_points := 1000,
    trade_direction := "BOTH".data, weekend_closing := true,
    positions_per_setup := 3, positive_sl_points := 20,
    breakeven_trigger_points := 20, enable_progressive := false,
    enable_drawdown_layering := false, drawdown_layer_threshold := 200,
    positions_per_layer := 3, minimum_profit_per_position := 200,
    max_layers := 5, max_drawdown_points := 1000,
    enable_trailing_sl := false, trailing_tp_points := 900,
    trailing_sl_points := 300, dynamic_checkpoints := 5,
    prop_firm_mode := false, comment_off := false,
    strategy_type := "exit_signal_or_max_tp".data, reentry_count := 5 }

def c10envOk : EntryEnv :=
  { positionsGet := .ok (some []), weekday := 2, hourOfDay := 10,
    histLen := some 100, entrySignal := .ok (true, false) }

def c10envBad : EntryEnv :=
  { positionsGet := .ok (some []), weekday := 2, hourOfDay := 10,
    histLen := some 100, entrySignal := .error "indicator blew up" }

theorem entry_guard_fails_closed_witness :
    shouldOpenTradeBody c10cfg c10envOk = .ok true ∧
    shouldOpenTrade c10cfg c10envBad = false := by
  constructor
  · exact (entry_guard_fails_closed c10cfg c10envOk).1
      (by norm_num +decide [shouldOpenTrade, shouldOpenTradeBody, c10cfg, c10envOk,
        totalProfit, isWeekendTradingHours])
  · exact (entry_guard_fails_closed c10cfg c10envBad).2 "indicator blew up"
      (by norm_num +decide [shouldOpenTradeBody, c10cfg, c10envBad,
        totalProfit, isWeekendTradingHours])

/-! ## C2 -/

/-- C2: under `exit_signal_or_max_tp` a new entry is permitted only when the
position query succeeded, the symbol's open-position count is strictly below
`reentry_count`, and — when at least one position is open — some open
position is unprofitable (the aggregate `total_profit < 0` gate implies one
exists); with `reentry_count = 5` and five open positions,
`execute_trade_setup` emits no open action regardless of the signal state. -/
theorem exit_reentry_gate :
    (∀ cfg env, cfg.strategy_type = "exit_signal_or_max_tp".data →
      shouldOpenTrade cfg env = true →
      ∃ ps, env.positionsGet = .ok ps ∧
        (ps.getD []).length < cfg.reentry_count ∧
        (0 < (ps.getD []).length → ∃ p ∈ ps.getD [], p.profit + p.swap < 0)) ∧
    (∀ cfg env isBuy tick pointValue setupId ps,
      cfg.strategy_type = "exit_signal_or_max_tp".data →
      cfg.reentry_count = 5 →
      env.positionsGet = .ok (some ps) →
      ps.length = 5 →
      executeTradeSetupExitSignal cfg env isBuy tick pointValue setupId = []) := by
  constructor
  · intro cfg env hstrat h
    have hbody := (shouldOpenTrade_true_iff cfg env).mp h
    unfold shouldOpenTradeBody at hbody
    cases hpg : env.positionsGet with
    | error e => rw [hpg] at hbody; exact absurd hbody (by simp)
    | ok posOpt =>
      rw [hpg] at hbody
      simp only at hbody
      refine ⟨posOpt, rfl, ?_⟩
      by_cases h1 : cfg.strategy_type = "exit_signal_or_max_tp".data ∧
          cfg.reentry_count ≤ (posOpt.getD []).length
      · rw [if_pos h1] at hbody; exact absurd hbody (by simp)
      · rw [if_neg h1] at hbody
        have hlt : (posOpt.getD []).length < cfg.reentry_count := by
          rcases not_and_or.mp h1 with hc | hc
          · exact absurd hstrat hc
          · exact Nat.lt_of_not_le hc
        refine ⟨hlt, ?_⟩
        intro hpos
        by_cases h2 : cfg.strategy_type = "exit_signal_or_max_tp".data ∧
            0 < (posOpt.getD []).length ∧ 0 ≤ totalProfit (posOpt.getD [])
        · rw [if_pos h2] at hbody; exact absurd hbody (by simp)
        · have htot : totalProfit (posOpt.getD []) < 0 := by
            rcases not_and_or.mp h2 with hc | hc
            · exact absurd hstrat hc
            · rcases not_and_or.mp hc with hc' | hc'
              · exact absurd hpos hc'
              · exact not_le.mp hc'
          exact exists_negative_of_totalProfit_neg _ htot
  · intro cfg env isBuy tick pointValue setupId ps hstrat hre hpg hlen
    have hgate : shouldOpenTrade cfg env = false := by
      unfold shouldOpenTrade shouldOpenTradeBody
      rw [hpg]
      simp only [Option.getD_some]
      rw [if_pos ⟨hstrat, by rw [hre, hlen]⟩]
    unfold executeTradeSetupExitSignal
    rw [if_pos hgate]

def c2cfg : Config := { c10cfg with reentry_count := 5 }

def c2posFlat : Position :=
  { ticket := 21, symbol := "XAUUSD".data, ptype := 0, volume := 0.01,
    price_open := 1000, price_current := 1001, sl := 0, tp := 0,
    profit := 1, swap := 0, comment := "EXIT_1700000000_1".data }

def c2ps : List Position :=
  [c2posFlat, { c2posFlat with ticket := 22 }, { c2posFlat with ticket := 23 },
   { c2posFlat with ticket := 24 }, { c2posFlat with ticket := 25 }]

def c2envFull : EntryEnv :=
  { positionsGet := .ok (some c2ps), weekday := 2, hourOfDay := 10,
    histLen := some 100, entrySignal := .ok (true, true) }

def c2envEmpty : EntryEnv :=
  { positionsGet := .ok (some []), weekday := 2, hourOfDay := 10,
    histLen := some 100, entrySignal := .ok (true, false) }

theorem exit_reentry_gate_witness :
    (∃ ps, c2envEmpty.positionsGet = .ok ps ∧
      (ps.getD []).length < c2cfg.reentry_count ∧
      (0 < (ps.getD []).length → ∃ p ∈ ps.getD [], p.profit + p.swap < 0)) ∧
    executeTradeSetupExitSignal c2cfg c2envFull true ⟨999, 1000⟩ 1 "1700000000".data = [] := by
  constructor
  · exact (exit_reentry_gate).1 c2cfg c2envEmpty rfl
      (by norm_num +decide [shouldOpenTrade, shouldOpenTradeBody, c2cfg, c10cfg,
        c2envEmpty, totalProfit, isWeekendTradingHours])
  · exact (exit_reentry_gate).2 c2cfg c2envFull true ⟨999, 1000⟩ 1 "1700000000".data
      c2ps rfl rfl rfl (by decide)

/-! ## C8 -/

/-- C8: with weekend closing enabled, at any time on Saturday (in
particular Saturday 00:02 local time) `should_open_trade` refuses every new
entry regardless of the rest of the state; and inside the Saturday-midnight
window the unconditional weekend sweep closes exactly the positions with
strictly positive profit, leaving every unprofitable position open. -/
theorem weekend_guard_and_sweep :
    (∀ cfg env, cfg.weekend_closing = true → env.weekday = 5 →
      shouldOpenTrade cfg env = false) ∧
    (∀ (ps : List Position) (minuteOfHour : Nat), minuteOfHour < 5 →
      checkWeekendClosing 5 0 minuteOfHour ps =
        (ps.filter fun p => decide (0 < p.profit)).map
          fun p => Action.closePosition p.ticket) := by
  constructor
  · intro cfg env hwc hwd
    unfold shouldOpenTrade shouldOpenTradeBody
    cases hpg : env.positionsGet with
    | error e => rfl
    | ok posOpt =>
      simp only
      have hweek : isWeekendTradingHours env.weekday env.hourOfDay = true := by
        rw [hwd]; simp [isWeekendTradingHours]
      by_cases h1 : cfg.strategy_type = "exit_signal_or_max_tp".data ∧
          cfg.reentry_count ≤ (posOpt.getD []).length
      · rw [if_pos h1]
      · rw [if_neg h1]
        by_cases h2 : cfg.strategy_type = "exit_signal_or_max_tp".data ∧
            0 < (posOpt.getD []).length ∧ 0 ≤ totalProfit (posOpt.getD [])
        · rw [if_pos h2]
        · rw [if_neg h2, if_pos ⟨hwc, hweek⟩]
  · intro ps minuteOfHour hm
    unfold checkWeekendClosing
    rw [if_pos ⟨rfl, rfl, hm⟩]
    induction ps with
    | nil => rfl
    | cons p t ih =>
      by_cases hp : 0 < p.profit
      · simp [List.filterMap_cons, List.filter_cons, hp, ih]
      · simp [List.filterMap_cons, List.filter_cons, hp, ih]

def c8env : EntryEnv :=
  { positionsGet := .ok (some []), weekday := 5, hourOfDay := 0,
    histLen := some 100, entrySignal := .ok (true, true) }

def c8winner : Position :=
  { ticket := 81, symbol := "XAUUSD".data, ptype := 0, volume := 0.01,
    price_open := 1000, price_current := 1010, sl := 0, tp := 0,
    profit := 10, swap := 0, comment := "EXIT_1700000000_1".data }

def c8loser : Position :=
  { c8winner with ticket := 82, price_current := 992, profit := -8 }

theorem weekend_guard_and_sweep_witness :
    shouldOpenTrade c10cfg c8env = false ∧
    checkWeekendClosing 5 0 2 [c8winner, c8loser] =
      [Action.closePosition 81] := by
  constructor
  · exact (weekend_guard_and_sweep).1 c10cfg c8env rfl rfl
  · have := (weekend_guard_and_sweep).2 [c8winner, c8loser] 2 (by decide)
    rw [this]
    norm_num +decide [c8winner, c8loser, List.filter_cons]

/-! ## C4 -/

theorem addLayerOpenGo_no_reject (outcomes : List (Option Nat)) (acc : List Nat)
    (h : none ∉ outcomes) :
    addLayerOpenGo outcomes acc = (acc.reverse ++ outcomes.filterMap id, []) := by
  induction outcomes generalizing acc with
  | nil => simp [addLayerOpenGo]
  | cons o rest ih =>
    cases o with
    | none => exact absurd (List.mem_cons_self ..) h
    | some t =>
      have hr : none ∉ rest := fun hm => h (List.mem_cons_of_mem _ hm)
      simp [addLayerOpenGo, ih _ hr, List.filterMap_cons]

theorem addLayerOpenGo_reject (outcomes : List (Option Nat)) (acc : List Nat)
    (h : none ∈ outcomes) :
    addLayerOpenGo outcomes acc =
      ([], acc.reverse ++ (outcomes.takeWhile Option.isSome).filterMap id) := by
  induction outcomes generalizing acc with
  | nil => exact absurd h (List.not_mem_nil _)
  | cons o rest ih =>
    cases o with
    | none => simp [addLayerOpenGo, List.takeWhile_cons, Option.isSome]
    | some t =>
      have hr : none ∈ rest := by
        rcases List.mem_cons.mp h with h' | h'
        · exact absurd h'.symm (by simp)
        · exact h'
      simp [addLayerOpenGo, ih _ hr, List.takeWhile_cons, Option.isSome,
        List.filterMap_cons]

/-- C4 counterexample: in the multi-leg open loop of
`execute_trade_setup` (progressive / hybrid / initial drawdown arms), a
rejected leg is skipped with `continue`: with outcomes
`[open 101 ok, rejected, open 103 ok]` the batch returns `[101, 103]`,
issues no `close_position` call at all, and in particular does not close
the earlier-opened ticket 101 — the batch is not all-or-nothing, refuting
the claim that every multi-leg setup batch is rolled back on rejection. -/
theorem execute_setup_rejected_leg_not_rolled_back :
    executeSetupOpenLoop [some 101, none, some 103] = ([101, 103], []) ∧
    (executeSetupOpenLoop [some 101, none, some 103]).2 ≠ [101] := by
  constructor <;> decide

/-- C4 (amended): the all-or-nothing rollback holds for the layer batches
opened by `add_layer` — on the first rejection every earlier-opened ticket
is closed, the function returns no positions, and the rest of the batch is
abandoned; a batch with no rejection returns all its tickets and closes
nothing.  (The initial multi-leg batches of `execute_trade_setup` are *not*
rolled back: a rejected leg is skipped and earlier legs stay live, see the
counterexample.) -/
theorem add_layer_all_or_nothing (outcomes : List (Option Nat)) :
    (none ∉ outcomes →
      addLayerOpenLoop outcomes = (outcomes.filterMap id, [])) ∧
    (none ∈ outcomes →
      addLayerOpenLoop outcomes =
        ([], (outcomes.takeWhile Option.isSome).filterMap id)) := by
  constructor
  · intro h
    unfold addLayerOpenLoop
    rw [addLayerOpenGo_no_reject _ _ h]
    simp
  · intro h
    unfold addLayerOpenLoop
    rw [addLayerOpenGo_reject _ _ h]
    simp

theorem add_layer_all_or_nothing_witness :
    addLayerOpenLoop [some 7, some 8] = ([7, 8], []) ∧
    addLayerOpenLoop [some 7, none, some 9] = ([], [7]) := by
  constructor
  · have := (add_layer_all_or_nothing [some 7, some 8]).1 (by decide)
    simpa using this
  · have := (add_layer_all_or_nothing [some 7, none, some 9]).2 (by decide)
    simpa using this

/-! ## C9 -/

def c9setupId : List Char := "ABCDEFGHIJKLMNOPQRSTUVWXYZ0123".data

/-- C9 counterexample: the truncation point of `add_layer`'s comment
depends on the digit counts of the layer and position numbers, so two tags
emitted for the same logical setup in the same run need not carry the same
truncated setupId: for a 30-character setup id, layer 9 keeps
`setup_id[:21]` while layer 10 keeps `setup_id[:20]` (both tags still fit
in 31 characters, so the length half of the claim is not what fails). -/
theorem tag_truncation_inconsistent_counterexample :
    usedSetupId "ACE".data c9setupId 9 1 ≠ usedSetupId "ACE".data c9setupId 10 1 ∧
    (addLayerComment "ACE".data c9setupId 9 1).length ≤ 31 ∧
    (addLayerComment "ACE".data c9setupId 10 1).length ≤ 31 := by
  refine ⟨by decide, by decide, by decide⟩

/-- C9 (amended): whenever the fixed part of the tag fits (the template
`{prefix}_X_L{layer}_{num}` is at most 31 characters, which holds for all
realistic layer and position numbers), the emitted tag is at most 31
characters; the setupId embedded in the tag is always a leading slice
`setupId[:k]` of the setup id; and the truncation point is the same for two
tags of the same setup exactly when their layer and position numbers have
the same digit counts — not unconditionally as the claim states. -/
theorem tag_truncation_bounded_and_consistent
    (cmtHead setupId : List Char) (layerNum posNum : Nat) :
    ((cmtHead ++ "_X_L".data ++ natStr layerNum ++ "_".data ++ natStr posNum).length ≤ 31 →
      (addLayerComment cmtHead setupId layerNum posNum).length ≤ 31) ∧
    (∃ k, usedSetupId cmtHead setupId layerNum posNum = setupId.take k) ∧
    (∀ layerNum' posNum',
      (natStr layerNum).length = (natStr layerNum').length →
      (natStr posNum).length = (natStr posNum').length →
      usedSetupId cmtHead setupId layerNum posNum =
        usedSetupId cmtHead setupId layerNum' posNum') := by
  refine ⟨?_, ?_, ?_⟩
  · intro h31
    simp only [List.length_append, List.length_cons, List.length_nil] at h31
    simp only [addLayerComment]
    split
    · simp only [pySlice]
      split <;>
        (simp only [List.length_append, List.length_take, List.length_cons,
          List.length_nil] at *
         omega)
    · simp only [List.length_append, List.length_cons, List.length_nil] at *
      omega
  · simp only [usedSetupId]
    split
    · simp only [pySlice]
      split
      · exact ⟨_, rfl⟩
      · exact ⟨_, rfl⟩
    · exact ⟨setupId.length, (List.take_length ..).symm⟩
  · intro layerNum' posNum' hl hn
    have hC : (cmtHead ++ "_".data ++ setupId ++ "_L".data ++ natStr layerNum ++
        "_".data ++ natStr posNum).length =
        (cmtHead ++ "_".data ++ setupId ++ "_L".data ++ natStr layerNum' ++
        "_".data ++ natStr posNum').length := by
      simp [List.length_append, hl, hn]
    have hT : (cmtHead ++ "_X_L".data ++ natStr layerNum ++ "_".data ++
        natStr posNum).length =
        (cmtHead ++ "_X_L".data ++ natStr layerNum' ++ "_".data ++
        natStr posNum').length := by
      simp [List.length_append, hl, hn]
    simp only [usedSetupId]
    rw [hC, hT]

theorem tag_truncation_bounded_and_consistent_witness :
    (addLayerComment "ACE".data c9setupId 9 1).length ≤ 31 ∧
    usedSetupId "ACE".data c9setupId 9 1 = usedSetupId "ACE".data c9setupId 8 2 := by
  constructor
  · exact (tag_truncation_bounded_and_consistent "ACE".data c9setupId 9 1).1 (by decide)
  · exact (tag_truncation_bounded_and_consistent "ACE".data c9setupId 9 1).2.2 8 2
      (by decide) (by decide)

/-! ## C3 -/

def c3cfg : Config :=
  { c10cfg with
    strategy_type := ("drawdown_layering".data),
    enable_drawdown_layering := true, drawdown_layer_threshold := 20,
    max_layers := 5, max_drawdown_points := 1000, positions_per_layer := 3,
    minimum_profit_per_position := 200 }

def c3p1 : Position :=
  { ticket := 31, symbol := "XAUUSD".data, ptype := 0, volume := 1,
    price_open := 1000, price_current := 953, sl := 0, tp := 1200,
    profit := -47, swap := 0, comment := "ACE_S1_1_L1".data }

def c3p2 : Position := { c3p1 with ticket := 32, comment := "ACE_S1_2_L1".data }

/-- C3: `required_layers = min(ceil(dd/threshold), max_layers)` never
exceeds `max_layers`; the layering decision adds exactly the layer
`existing + 1` and fires iff `existing < required` (for `0 < dd < max`);
nothing is added once `existing = max_layers`; and in the scenario
(threshold 20, max 5, drawdown 47 points, one existing layer) the engine
computes `required = 3` and emits exactly one `positions_per_layer` batch
tagged `L2`, not `L3`. -/
theorem drawdown_layer_cap :
    (∀ cfg ddPoints, requiredLayersOf cfg ddPoints ≤ (cfg.max_layers : Int)) ∧
    (∀ cfg ddPoints existingCount r,
      ddlLayerDecision cfg ddPoints existingCount = some r →
        r = existingCount + 1) ∧
    (∀ cfg ddPoints existingCount,
      0 < ddPoints → ddPoints < cfg.max_drawdown_points →
      (ddlLayerDecision cfg ddPoints existingCount = some (existingCount + 1) ↔
        (existingCount : Int) < requiredLayersOf cfg ddPoints)) ∧
    (∀ cfg ddPoints, ddlLayerDecision cfg ddPoints cfg.max_layers = none) ∧
    (requiredLayersOf c3cfg 47 = 3 ∧
      ddlGroupActions c3cfg 1 ⟨953, 953.2⟩ true "S1".data [c3p1, c3p2] =
        [Action.openPosition true 0.01 (-46.8) 1153.2 "ACE_S1_L2_1".data,
         Action.openPosition true 0.01 (-46.8) 1153.2 "ACE_S1_L2_2".data,
         Action.openPosition true 0.01 (-46.8) 1153.2 "ACE_S1_L2_3".data,
         Action.modifyTakeProfit 31 1200,
         Action.modifyTakeProfit 32 1200]) := by
  have hceil : (⌈(47 : ℚ) / 20⌉ : Int) = 3 := by
    rw [Int.ceil_eq_iff]
    norm_num
  have hthr : c3cfg.drawdown_layer_threshold = 20 := rfl
  have hml : c3cfg.max_layers = 5 := rfl
  have hmdd : c3cfg.max_drawdown_points = 1000 := rfl
  have hreq : requiredLayersOf c3cfg 47 = 3 := by
    unfold requiredLayersOf
    rw [hthr, hml, hceil]
    norm_num
  have hdec : ddlLayerDecision c3cfg 47 1 = some 2 := by
    unfold ddlLayerDecision
    rw [hreq, hmdd]
    norm_num
  refine ⟨?_, ?_, ?_, ?_, hreq, ?_⟩
  · intro cfg ddPoints
    exact min_le_right _ _
  · intro cfg ddPoints existingCount r h
    unfold ddlLayerDecision at h
    split_ifs at h
    exact (Option.some_inj.mp h).symm
  · intro cfg ddPoints existingCount hdd hmax
    constructor
    · intro h
      unfold ddlLayerDecision at h
      split_ifs at h with h1 h2 h3 h4
      exact lt_of_not_le h3
    · intro h
      unfold ddlLayerDecision
      rw [if_neg (not_le.mpr hdd), if_neg (not_le.mpr hmax),
        if_neg (not_le.mpr h), if_pos (Int.add_one_le_iff.mpr h)]
  · intro cfg ddPoints
    unfold ddlLayerDecision
    split_ifs with h1 h2 h3 h4
    · rfl
    · rfl
    · rfl
    · exact absurd (le_trans (Int.add_one_le_iff.mp h4) (min_le_right _ _))
        (by simp)
    · rfl
  · have hlot : c3cfg.lot_size = 0.01 := rfl
    have hslp : c3cfg.sl_points = 1000 := rfl
    have hmin : c3cfg.minimum_profit_per_position = 200 := rfl
    have hppl : c3cfg.positions_per_layer = 3 := rfl
    have hcoff : c3cfg.comment_off = false := rfl
    norm_num +decide [ddlGroupActions, existingLayersOf, insertUnique,
      layerTokenOf, splitOnSep, strStarts, c3p1, c3p2, hdec, addLayerActions,
      addLayerComment, adjustTakeProfits, natStr, pySlice, List.range_succ,
      List.filter_cons, List.filterMap_cons, List.foldl_cons, List.foldl_nil,
      hlot, hslp, hmin, hppl, hcoff]

theorem drawdown_layer_cap_witness :
    ddlLayerDecision c3cfg 47 1 = some 2 ∧
    ddlLayerDecision c3cfg 47 5 = none := by
  have hmdd : c3cfg.max_drawdown_points = 1000 := rfl
  have hml : c3cfg.max_layers = 5 := rfl
  constructor
  · refine ((drawdown_layer_cap).2.2.1 c3cfg 47 1 (by norm_num)
      (by rw [hmdd]; norm_num)).mpr ?_
    rw [(drawdown_layer_cap).2.2.2.2.1]
    norm_num
  · rw [← hml]
    exact (drawdown_layer_cap).2.2.2.1 c3cfg 47

/-! ## C7 -/

def c7cfg : Config :=
  { c10cfg with
    strategy_type := ("progressive".data),
    tp_points := 90, enable_progressive := true }

def c7p1 : Position :=
  { ticket := 11, symbol := "XAUUSD".data, ptype := 0, volume := 0.01,
    price_open := 1000, price_current := 1032, sl := 900, tp := 1030,
    profit := 32, swap := 0, comment := "PROG_S_1".data }

def c7p2 : Position :=
  { c7p1 with
    ticket := 12, price_open := 1005, price_current := 1037,
    tp := 1065, comment := "PROG_S_2".data }

def c7p3 : Position :=
  { c7p1 with
    ticket := 13, price_open := 1010, price_current := 1042,
    tp := 1100, comment := "PROG_S_3".data }

/-- C7: in a 3-position progressive setup with a 90-point total target
(per-position tiers 30/60/90), position 1 at 32 points of profit is closed
and every other position of the setup gets `ModifyStopLoss(open_price)`
(breakeven); and the progressive rules skip every group with fewer than two
positions. -/
theorem progressive_first_target :
    (manageProgressive c7cfg 1 [c7p1, c7p2, c7p3] =
      [Action.closePosition 11, Action.modifyStopLoss 12 1005,
       Action.modifyStopLoss 13 1010]) ∧
    (∀ cfg pointValue ps, (∀ g ∈ progGroups ps, g.2.length < 2) →
      manageProgressive cfg pointValue ps = []) := by
  constructor
  · have htp : c7cfg.tp_points = 90 := rfl
    have hpps : c7cfg.positions_per_setup = 3 := rfl
    have hbe : c7cfg.breakeven_trigger_points = 20 := rfl
    have hd1 : Char.toNat '1' = 49 := rfl
    have hd2 : Char.toNat '2' = 50 := rfl
    have hd3 : Char.toNat '3' = 51 := rfl
    norm_num +decide [manageProgressive, progGroups, insertGroup, sortByNumber,
      insertByNumber, positionNumberOf, parseInt, parseNat, parseNatGo, digitVal,
      splitOnSep, strStarts, progPositionActions, c7p1, c7p2, c7p3,
      List.enum, List.enumFrom, List.filter_cons, List.foldl_cons, List.foldl_nil,
      htp, hpps, hbe, hd1, hd2, hd3]
  · intro cfg pointValue ps h
    unfold manageProgressive
    refine List.eq_nil_iff_forall_not_mem.mpr fun a ha => ?_
    rw [List.mem_flatMap] at ha
    obtain ⟨g, hg, hmem⟩ := ha
    rw [if_pos (h g hg)] at hmem
    exact absurd hmem (List.not_mem_nil a)

theorem progressive_first_target_witness :
    manageProgressive c7cfg 1 [c7p1] = [] :=
  (progressive_first_target).2 c7cfg 1 [c7p1] (by decide)

/-! ## Checkpoint arithmetic (C1, C6) -/

theorem currentCheckpoint_succ (n : Nat) (size p : ℚ) :
    currentCheckpoint (n + 1) size p =
      if size * ((n : ℚ) + 1) ≤ p then n + 1 else currentCheckpoint n size p := by
  unfold currentCheckpoint
  rw [List.range_succ, List.foldl_append]
  simp

theorem currentCheckpoint_le (n : Nat) (size p : ℚ) :
    currentCheckpoint n size p ≤ n := by
  induction n with
  | zero => simp [currentCheckpoint]
  | succ n ih =>
    rw [currentCheckpoint_succ]
    split
    · exact le_rfl
    · omega

theorem currentCheckpoint_mul_le (n : Nat) (size p : ℚ)
    (h : 1 ≤ currentCheckpoint n size p) :
    size * (currentCheckpoint n size p : ℚ) ≤ p := by
  induction n with
  | zero => simp [currentCheckpoint] at h
  | succ n ih =>
    by_cases hc : size * ((n : ℚ) + 1) ≤ p
    · rw [currentCheckpoint_succ, if_pos hc]
      push_cast
      exact hc
    · rw [currentCheckpoint_succ, if_neg hc] at h ⊢
      exact ih h

theorem currentCheckpoint_lt_mul (n : Nat) (size p : ℚ)
    (h : currentCheckpoint n size p < n) :
    p < size * ((currentCheckpoint n size p : ℚ) + 1) := by
  induction n with
  | zero => exact absurd h (Nat.not_lt_zero _)
  | succ n ih =>
    by_cases hc : size * ((n : ℚ) + 1) ≤ p
    · rw [currentCheckpoint_succ, if_pos hc] at h
      omega
    · rw [currentCheckpoint_succ, if_neg hc] at h ⊢
      rcases lt_or_ge (currentCheckpoint n size p) n with hlt | hge
      · exact ih hlt
      · have heq : currentCheckpoint n size p = n :=
          le_antisymm (currentCheckpoint_le n size p) hge
        rw [heq]
        linarith [not_le.mp hc]

theorem currentCheckpoint_mono (n : Nat) (size : ℚ) {p q : ℚ} (hpq : p ≤ q) :
    currentCheckpoint n size p ≤ currentCheckpoint n size q := by
  induction n with
  | zero => simp [currentCheckpoint]
  | succ n ih =>
    rw [currentCheckpoint_succ, currentCheckpoint_succ]
    by_cases hp : size * ((n : ℚ) + 1) ≤ p
    · rw [if_pos hp, if_pos (le_trans hp hpq)]
    · rw [if_neg hp]
      split
      · exact le_trans (currentCheckpoint_le n size p) (Nat.le_succ n)
      · exact ih

theorem lockInOf_nonneg (n : Nat) {size : ℚ} (hs : 0 < size) (p : ℚ) :
    0 ≤ lockInOf n size p := by
  simp only [lockInOf]
  split
  · exact le_rfl
  · rename_i hc
    have h2 : (2 : ℚ) ≤ (currentCheckpoint n size p : ℚ) := by
      exact_mod_cast Nat.succ_le_of_lt (Nat.lt_of_not_le hc)
    split
    · rename_i h3
      rw [lt_div_iff₀ hs] at h3
      nlinarith
    · nlinarith

theorem lockInOf_mono (n : Nat) {size p q : ℚ} (hs : 0 < size) (hpq : p ≤ q) :
    lockInOf n size p ≤ lockInOf n size q := by
  have hle : currentCheckpoint n size p ≤ currentCheckpoint n size q :=
    currentCheckpoint_mono n size hpq
  by_cases h1 : currentCheckpoint n size p ≤ 1
  · have hp0 : lockInOf n size p = 0 := by
      simp only [lockInOf]
      rw [if_pos h1]
    rw [hp0]
    exact lockInOf_nonneg n hs q
  · have h1q : ¬ currentCheckpoint n size q ≤ 1 := fun hq => h1 (le_trans hle hq)
    have ep : lockInOf n size p =
        ((currentCheckpoint n size p : ℚ) - 1) * size * 0.8 +
          (if 0.3 < (p - size * ((currentCheckpoint n size p : ℚ) - 1)) / size then
            (p - size * ((currentCheckpoint n size p : ℚ) - 1)) * 0.8 * 0.5
          else 0) := by
      simp only [lockInOf]
      rw [if_neg h1]
    have eq' : lockInOf n size q =
        ((currentCheckpoint n size q : ℚ) - 1) * size * 0.8 +
          (if 0.3 < (q - size * ((currentCheckpoint n size q : ℚ) - 1)) / size then
            (q - size * ((currentCheckpoint n size q : ℚ) - 1)) * 0.8 * 0.5
          else 0) := by
      simp only [lockInOf]
      rw [if_neg h1q]
    rcases eq_or_lt_of_le hle with heq | hlt
    · rw [ep, eq', ← heq]
      have hprog : p - size * ((currentCheckpoint n size p : ℚ) - 1) ≤
          q - size * ((currentCheckpoint n size p : ℚ) - 1) := by linarith
      split_ifs with hp3 hq3 hq3
      · linarith
      · exact absurd (lt_of_lt_of_le hp3 ((div_le_div_iff_of_pos_right hs).mpr hprog)) hq3
      · rw [lt_div_iff₀ hs] at hq3
        linarith
      · linarith
    · have hcplt : currentCheckpoint n size p < n :=
        lt_of_lt_of_le hlt (currentCheckpoint_le n size q)
      have hub : p < size * ((currentCheckpoint n size p : ℚ) + 1) :=
        currentCheckpoint_lt_mul n size p hcplt
      have hlbq : size * (currentCheckpoint n size q : ℚ) ≤ q :=
        currentCheckpoint_mul_le n size q (by omega)
      have hcast : (currentCheckpoint n size p : ℚ) + 1 ≤
          (currentCheckpoint n size q : ℚ) := by
        exact_mod_cast hlt
      have hmul : size * ((currentCheckpoint n size p : ℚ) + 1) ≤
          size * (currentCheckpoint n size q : ℚ) :=
        mul_le_mul_of_nonneg_left hcast hs.le
      rw [ep, eq']
      split_ifs with hp3 hq3 hq3
      · rw [lt_div_iff₀ hs] at hp3 hq3
        nlinarith
      · rw [lt_div_iff₀ hs] at hp3
        nlinarith
      · rw [lt_div_iff₀ hs] at hq3
        nlinarith
      · nlinarith

theorem trailingComputedSL_mono_buy (cfg : Config) {pv openP c c' s t : ℚ}
    (hpv : 0 < pv)
    (hsz : 0 < cfg.trailing_tp_points / (cfg.dynamic_checkpoints : ℚ))
    (hcc : c ≤ c')
    (hs : trailingComputedSL cfg pv true openP c = some s)
    (ht : trailingComputedSL cfg pv true openP c' = some t) : s ≤ t := by
  simp only [trailingComputedSL, if_true] at hs ht
  split_ifs at hs ht
  have hvs := Option.some_inj.mp hs
  have hvt := Option.some_inj.mp ht
  have hp : (c - openP) / pv ≤ (c' - openP) / pv :=
    (div_le_div_iff_of_pos_right hpv).mpr (by linarith)
  have hlock := lockInOf_mono cfg.dynamic_checkpoints hsz hp
  have := mul_le_mul_of_nonneg_right hlock hpv.le
  linarith [hvs, hvt]

theorem trailingComputedSL_mono_sell (cfg : Config) {pv openP c c' s t : ℚ}
    (hpv : 0 < pv)
    (hsz : 0 < cfg.trailing_tp_points / (cfg.dynamic_checkpoints : ℚ))
    (hcc : c' ≤ c)
    (hs : trailingComputedSL cfg pv false openP c = some s)
    (ht : trailingComputedSL cfg pv false openP c' = some t) : t ≤ s := by
  simp only [trailingComputedSL, Bool.false_eq_true, if_false] at hs ht
  split_ifs at hs ht
  have hvs := Option.some_inj.mp hs
  have hvt := Option.some_inj.mp ht
  have hp : (openP - c) / pv ≤ (openP - c') / pv :=
    (div_le_div_iff_of_pos_right hpv).mpr (by linarith)
  have hlock := lockInOf_mono cfg.dynamic_checkpoints hsz hp
  have := mul_le_mul_of_nonneg_right hlock hpv.le
  linarith [hvs, hvt]

theorem trailingNewSL_some_computed {cfg : Config} {pv : ℚ} {pos : Position}
    {s : ℚ} (h : trailingNewSL cfg pv pos = some s) :
    trailingComputedSL cfg pv (decide (pos.ptype = 0))
      pos.price_open pos.price_current = some s := by
  unfold trailingNewSL at h
  split_ifs at h
  cases hc : trailingComputedSL cfg pv (decide (pos.ptype = 0))
      pos.price_open pos.price_current with
  | none =>
    simp only [hc] at h
    exact h
  | some v =>
    simp only [hc] at h
    split_ifs at h <;> simp_all

theorem trailingRun_cons_emit {cfg : Config} {pv : ℚ} {pos : Position}
    {c s : ℚ} {cs : List ℚ}
    (h : trailingNewSL cfg pv { pos with price_current := c } = some s) :
    trailingRun cfg pv pos (c :: cs) =
      s :: trailingRun cfg pv { pos with price_current := c, sl := s } cs := by
  simp only [trailingRun, h]

theorem trailingRun_cons_skip {cfg : Config} {pv : ℚ} {pos : Position}
    {c : ℚ} {cs : List ℚ}
    (h : trailingNewSL cfg pv { pos with price_current := c } = none) :
    trailingRun cfg pv pos (c :: cs) =
      trailingRun cfg pv { pos with price_current := c } cs := by
  simp only [trailingRun, h]

theorem trailingRun_mem {cfg : Config} {pv : ℚ} :
    ∀ (prices : List ℚ) (pos : Position) (t : ℚ),
    t ∈ trailingRun cfg pv pos prices →
    ∃ c ∈ prices, trailingComputedSL cfg pv (decide (pos.ptype = 0))
      pos.price_open c = some t := by
  intro prices
  induction prices with
  | nil => simp [trailingRun]
  | cons c cs ih =>
    intro pos t ht
    cases hemit : trailingNewSL cfg pv { pos with price_current := c } with
    | none =>
      rw [trailingRun_cons_skip hemit] at ht
      obtain ⟨c', hc', hcomp⟩ := ih _ t ht
      exact ⟨c', List.mem_cons_of_mem _ hc', by simpa using hcomp⟩
    | some s =>
      rw [trailingRun_cons_emit hemit] at ht
      rcases List.mem_cons.mp ht with heq | hmem
      · subst heq
        refine ⟨c, List.mem_cons_self .., ?_⟩
        simpa using trailingNewSL_some_computed hemit
      · obtain ⟨c', hc', hcomp⟩ := ih _ t hmem
        exact ⟨c', List.mem_cons_of_mem _ hc', by simpa using hcomp⟩

theorem trailingRun_pairwise_buy {cfg : Config} {pv : ℚ} (hpv : 0 < pv)
    (hsz : 0 < cfg.trailing_tp_points / (cfg.dynamic_checkpoints : ℚ)) :
    ∀ (prices : List ℚ) (pos : Position), pos.ptype = 0 →
    prices.Pairwise (· ≤ ·) →
    (trailingRun cfg pv pos prices).Pairwise (· ≤ ·) := by
  intro prices
  induction prices with
  | nil => simp [trailingRun]
  | cons c cs ih =>
    intro pos hbuy hpw
    rw [List.pairwise_cons] at hpw
    obtain ⟨hhead, htail⟩ := hpw
    cases hemit : trailingNewSL cfg pv { pos with price_current := c } with
    | none =>
      rw [trailingRun_cons_skip hemit]
      exact ih _ (by simpa using hbuy) htail
    | some s =>
      rw [trailingRun_cons_emit hemit, List.pairwise_cons]
      refine ⟨?_, ih _ (by simpa using hbuy) htail⟩
      intro t ht
      obtain ⟨c', hc', hcomp⟩ := trailingRun_mem cs _ t ht
      have hcompS : trailingComputedSL cfg pv true pos.price_open c = some s := by
        have := trailingNewSL_some_computed hemit
        simpa [hbuy] using this
      have hcompT : trailingComputedSL cfg pv true pos.price_open c' = some t := by
        simpa [hbuy] using hcomp
      exact trailingComputedSL_mono_buy cfg hpv hsz (hhead c' hc') hcompS hcompT

theorem trailingRun_pairwise_sell {cfg : Config} {pv : ℚ} (hpv : 0 < pv)
    (hsz : 0 < cfg.trailing_tp_points / (cfg.dynamic_checkpoints : ℚ)) :
    ∀ (prices : List ℚ) (pos : Position), ¬ pos.ptype = 0 →
    prices.Pairwise (· ≥ ·) →
    (trailingRun cfg pv pos prices).Pairwise (· ≥ ·) := by
  intro prices
  induction prices with
  | nil => simp [trailingRun]
  | cons c cs ih =>
    intro pos hsell hpw
    rw [List.pairwise_cons] at hpw
    obtain ⟨hhead, htail⟩ := hpw
    cases hemit : trailingNewSL cfg pv { pos with price_current := c } with
    | none =>
      rw [trailingRun_cons_skip hemit]
      exact ih _ (by simpa using hsell) htail
    | some s =>
      rw [trailingRun_cons_emit hemit, List.pairwise_cons]
      refine ⟨?_, ih _ (by simpa using hsell) htail⟩
      intro t ht
      obtain ⟨c', hc', hcomp⟩ := trailingRun_mem cs _ t ht
      have hcompS : trailingComputedSL cfg pv false pos.price_open c = some s := by
        have := trailingNewSL_some_computed hemit
        simpa [hsell] using this
      have hcompT : trailingComputedSL cfg pv false pos.price_open c' = some t := by
        simpa [hsell] using hcomp
      exact trailingComputedSL_mono_sell cfg hpv hsz (hhead c' hc') hcompS hcompT

/-! ## C1 -/

/-- C1: `manage_trailing_sl` emits a stop-loss modify only through the
improvement gate — the position's stop is `0` (unset) or the new stop is
strictly greater (long) / strictly smaller (short) than the existing one —
and over any sequence of cycles whose profit points increase (prices
non-decreasing for a long position, non-increasing for a short one) the
emitted stop values are non-decreasing (long) / non-increasing (short): the
engine never loosens a stop. -/
theorem trailing_monotonic_stop :
    (∀ cfg pointValue pos s, trailingNewSL cfg pointValue pos = some s →
      pos.sl = 0 ∨
        ((pos.ptype = 0 → pos.sl < s) ∧ (¬ pos.ptype = 0 → s < pos.sl))) ∧
    (∀ (cfg : Config) (pointValue : ℚ) (pos : Position) (prices : List ℚ),
      0 < pointValue → 0 < cfg.trailing_tp_points → 0 < cfg.dynamic_checkpoints →
      pos.ptype = 0 → prices.Pairwise (· ≤ ·) →
      (trailingRun cfg pointValue pos prices).Pairwise (· ≤ ·)) ∧
    (∀ (cfg : Config) (pointValue : ℚ) (pos : Position) (prices : List ℚ),
      0 < pointValue → 0 < cfg.trailing_tp_points → 0 < cfg.dynamic_checkpoints →
      ¬ pos.ptype = 0 → prices.Pairwise (· ≥ ·) →
      (trailingRun cfg pointValue pos prices).Pairwise (· ≥ ·)) := by
  refine ⟨?_, ?_, ?_⟩
  · intro cfg pointValue pos s h
    unfold trailingNewSL at h
    split_ifs at h
    cases hc : trailingComputedSL cfg pointValue (decide (pos.ptype = 0))
        pos.price_open pos.price_current with
    | none =>
      simp only [hc] at h
      exact absurd h (by simp)
    | some v =>
      simp only [hc] at h
      split_ifs at h with hbuy hgate hgate
      · have hv := Option.some_inj.mp h
        subst hv
        rcases hgate with h0 | hlt
        · exact Or.inl h0
        · exact Or.inr ⟨fun _ => hlt, fun hn => absurd hbuy hn⟩
      · have hv := Option.some_inj.mp h
        subst hv
        rcases hgate with h0 | hlt
        · exact Or.inl h0
        · exact Or.inr ⟨fun hb => absurd hb hbuy, fun _ => hlt⟩
  · intro cfg pointValue pos prices hpv htp hdc hbuy hpw
    have hsz : 0 < cfg.trailing_tp_points / (cfg.dynamic_checkpoints : ℚ) :=
      div_pos htp (by exact_mod_cast hdc)
    exact trailingRun_pairwise_buy hpv hsz prices pos hbuy hpw
  · intro cfg pointValue pos prices hpv htp hdc hsell hpw
    have hsz : 0 < cfg.trailing_tp_points / (cfg.dynamic_checkpoints : ℚ) :=
      div_pos htp (by exact_mod_cast hdc)
    exact trailingRun_pairwise_sell hpv hsz prices pos hsell hpw

def c1cfg : Config :=
  { c10cfg with
    strategy_type := ("trailing_stop".data),
    enable_trailing_sl := true, trailing_tp_points := 100,
    dynamic_checkpoints := 5 }

def c1pos : Position :=
  { ticket := 41, symbol := "XAUUSD".data, ptype := 0, volume := 0.01,
    price_open := 1000, price_current := 1047, sl := 1024.8, tp := 1100,
    profit := 47, swap := 0, comment := "TSL_1700000000_1".data }

theorem trailing_monotonic_stop_witness :
    (c1pos.sl = 0 ∨
      ((c1pos.ptype = 0 → c1pos.sl < 1026.8) ∧
        (¬ c1pos.ptype = 0 → 1026.8 < c1pos.sl))) ∧
    (trailingRun c1cfg 1 { c1pos with sl := 0 } [1025, 1042, 1047]).Pairwise
      (· ≤ ·) := by
  constructor
  · refine (trailing_monotonic_stop).1 c1cfg 1 c1pos 1026.8 ?_
    have htp : c1cfg.trailing_tp_points = 100 := rfl
    have hdc : c1cfg.dynamic_checkpoints = 5 := rfl
    norm_num +decide [trailingNewSL, trailingComputedSL, lockInOf,
      currentCheckpoint, List.range_succ, splitOnSep, strStarts, c1pos,
      htp, hdc]
  · refine (trailing_monotonic_stop).2.1 c1cfg 1 { c1pos with sl := 0 }
      [1025, 1042, 1047] (by norm_num) ?_ ?_ rfl (by norm_num)
    · have htp : c1cfg.trailing_tp_points = 100 := rfl
      rw [htp]
      norm_num
    · have hdc : c1cfg.dynamic_checkpoints = 5 := rfl
      rw [hdc]
      norm_num

/-! ## C6 -/

def c6cfg : Config :=
  { c10cfg with
    strategy_type := ("trailing_stop".data),
    enable_trailing_sl := true, trailing_tp_points := 100,
    dynamic_checkpoints := 5 }

/-- C6: at target 100, five checkpoints (size 20) and 47 points of profit,
the code computes checkpoint 2 but then takes
`progress_to_next = 47 − 20·(checkpoint−1) = 27` (135% of a checkpoint, not
the 7 points / 35% the claim and the spec describe), so the ">30%" partial
credit fires and the new stop is `open + 26.8` points — not `open + 18.8`.
The percentage is at least 100% whenever checkpoint ≥ 2 (see
`lockInOf`/`currentCheckpoint` and `currentCheckpoint_mul_le`), so the
"progress exceeds 30%" conditional of `app.py` line 1238 can never be
false, contradicting its own comments; the spec records the evident
intent. -/
theorem trailing_checkpoint_code_values :
    currentCheckpoint 5 20 47 = 2 ∧
    (47 - 20 * ((currentCheckpoint 5 20 47 : ℚ) - 1)) / 20 = 1.35 ∧
    lockInOf 5 20 47 = 26.8 ∧
    trailingComputedSL c6cfg 1 true 1000 1047 = some 1026.8 := by
  have hcp : currentCheckpoint 5 20 47 = 2 := by
    norm_num [currentCheckpoint, List.range_succ]
  have htp : c6cfg.trailing_tp_points = 100 := rfl
  have hdc : c6cfg.dynamic_checkpoints = 5 := rfl
  refine ⟨hcp, ?_, ?_, ?_⟩
  · rw [hcp]
    norm_num
  · norm_num [lockInOf, hcp]
  · norm_num [trailingComputedSL, lockInOf, currentCheckpoint,
      List.range_succ, htp, hdc]

/-! ## C5: frame lemmas -/

/-- A comment carrying none of the strategy prefixes `manage_positions`
dispatches on (`PROG_`, `HYBRID_`, `TSL_`, `ACE_`, `DDL_`, `EXIT_`); the
empty comment is one such.  This — not the spec's tag grammar — is the
engine's actual "unmanaged" bucket: it is strictly smaller than the set of
comments failing the tag grammar, because a prefixed-but-malformed comment
(e.g. `PROG_S`, which has no position index) is still dispatched to its
strategy engine. -/
def lacksStrategyTag (c : List Char) : Prop :=
  strStarts c "PROG_".data = false ∧ strStarts c "HYBRID_".data = false ∧
  strStarts c "TSL_".data = false ∧ strStarts c "ACE_".data = false ∧
  strStarts c "DDL_".data = false ∧ strStarts c "EXIT_".data = false

theorem enum_snd_mem {α : Type} {l : List α} {i : Nat} {x : α}
    (h : (i, x) ∈ l.enum) : x ∈ l := by
  have h' : (i, x) ∈ List.enumFrom 0 l := h
  obtain ⟨h1, h2, h3⟩ := List.mem_enumFrom h'
  rw [h3]
  exact List.getElem_mem (by omega)

theorem insertGroup_mem_sub {k : List Char} {p : Position} :
    ∀ (acc : List (List Char × List Position)) (g : List Char × List Position),
    g ∈ insertGroup k p acc → ∀ q ∈ g.2, q = p ∨ ∃ g' ∈ acc, q ∈ g'.2 := by
  intro acc
  induction acc with
  | nil =>
    intro g hg q hq
    simp only [insertGroup, List.mem_singleton] at hg
    subst hg
    simp only [List.mem_singleton] at hq
    exact Or.inl hq
  | cons kl rest ih =>
    intro g hg q hq
    simp only [insertGroup] at hg
    by_cases hk : kl.1 = k
    · rw [if_pos hk] at hg
      rcases List.mem_cons.mp hg with heq | hmem
      · subst heq
        rcases List.mem_append.mp hq with hl | hr
        · exact Or.inr ⟨kl, List.mem_cons_self .., hl⟩
        · simp only [List.mem_singleton] at hr
          exact Or.inl hr
      · exact Or.inr ⟨g, List.mem_cons_of_mem _ hmem, hq⟩
    · rw [if_neg hk] at hg
      rcases List.mem_cons.mp hg with heq | hmem
      · refine Or.inr ⟨kl, List.mem_cons_self .., ?_⟩
        rw [heq] at hq
        simpa using hq
      · rcases ih g hmem q hq with h | ⟨g', hg', hq'⟩
        · exact Or.inl h
        · exact Or.inr ⟨g', List.mem_cons_of_mem _ hg', hq'⟩

theorem progGroups_sub (ps : List Position) :
    ∀ g ∈ progGroups ps, ∀ q ∈ g.2,
      q ∈ ps ∧ (strStarts q.comment "PROG_".data = true ∨
        strStarts q.comment "HYBRID_".data = true) := by
  suffices aux : ∀ (l : List Position) (acc : List (List Char × List Position)),
      (∀ g ∈ acc, ∀ q ∈ g.2, q ∈ ps ∧ (strStarts q.comment "PROG_".data = true ∨
        strStarts q.comment "HYBRID_".data = true)) →
      (∀ p ∈ l, p ∈ ps) →
      ∀ g ∈ l.foldl
        (fun acc p =>
          if ¬ (strStarts p.comment "PROG_".data = true) ∧
              ¬ (strStarts p.comment "HYBRID_".data = true) then acc
          else insertGroup ((splitOnSep '_' p.comment).getD 1 []) p acc)
        acc,
      ∀ q ∈ g.2, q ∈ ps ∧ (strStarts q.comment "PROG_".data = true ∨
        strStarts q.comment "HYBRID_".data = true) by
    intro g hg q hq
    exact aux ps [] (by simp) (fun p hp => hp) g hg q hq
  intro l
  induction l with
  | nil =>
    intro acc hacc _ g hg q hq
    exact hacc g hg q hq
  | cons p t ih =>
    intro acc hacc hsub g hg q hq
    simp only [List.foldl_cons] at hg
    by_cases hc : ¬ (strStarts p.comment "PROG_".data = true) ∧
        ¬ (strStarts p.comment "HYBRID_".data = true)
    · rw [if_pos hc] at hg
      exact ih acc hacc (fun x hx => hsub x (List.mem_cons_of_mem _ hx)) g hg q hq
    · rw [if_neg hc] at hg
      refine ih _ ?_ (fun x hx => hsub x (List.mem_cons_of_mem _ hx)) g hg q hq
      intro g' hg' q' hq'
      rcases insertGroup_mem_sub acc g' hg' q' hq' with heq | ⟨g'', hg'', hq''⟩
      · subst heq
        refine ⟨hsub q' (List.mem_cons_self ..), ?_⟩
        rcases not_and_or.mp hc with h | h
        · exact Or.inl (by simpa using h)
        · exact Or.inr (by simpa using h)
      · exact hacc g'' hg'' q' hq''

theorem insertByNumber_mem {a : Position} :
    ∀ (l : List Position) (x : Position), x ∈ insertByNumber a l → x = a ∨ x ∈ l := by
  intro l
  induction l with
  | nil =>
    intro x hx
    simp only [insertByNumber, List.mem_singleton] at hx
    exact Or.inl hx
  | cons b t ih =>
    intro x hx
    simp only [insertByNumber] at hx
    split at hx
    · rcases List.mem_cons.mp hx with heq | hmem
      · exact Or.inr (heq ▸ List.mem_cons_self ..)
      · rcases ih x hmem with h | h
        · exact Or.inl h
        · exact Or.inr (List.mem_cons_of_mem _ h)
    · rcases List.mem_cons.mp hx with heq | hmem
      · exact Or.inl heq
      · exact Or.inr hmem

theorem sortByNumber_sub :
    ∀ (l : List Position) (x : Position), x ∈ sortByNumber l → x ∈ l := by
  suffices aux : ∀ (l : List Position) (acc : List Position) (x : Position),
      x ∈ l.foldl (fun acc a => insertByNumber a acc) acc → x ∈ acc ∨ x ∈ l by
    intro l x hx
    rcases aux l [] x hx with h | h
    · exact absurd h (List.not_mem_nil x)
    · exact h
  intro l
  induction l with
  | nil =>
    intro acc x hx
    exact Or.inl hx
  | cons a t ih =>
    intro acc x hx
    simp only [List.foldl_cons] at hx
    rcases ih _ x hx with h | h
    · rcases insertByNumber_mem _ x h with heq | hmem
      · exact Or.inr (heq ▸ List.mem_cons_self ..)
      · exact Or.inl hmem
    · exact Or.inr (List.mem_cons_of_mem _ h)

theorem progPositionActions_target (cfg : Config) (pointValue : ℚ)
    (sorted : List Position) (i : Nat) (pos : Position) (a : Action)
    (ha : a ∈ progPositionActions cfg pointValue sorted i pos) (t : Nat)
    (hat : a.target = some t) :
    t = pos.ticket ∨ ∃ q ∈ sorted, q.ticket = t := by
  simp only [progPositionActions] at ha
  rcases List.mem_append.mp ha with hfirst | hbe
  · split_ifs at hfirst <;>
    first
    | exact absurd hfirst (List.not_mem_nil a)
    | (rcases List.mem_cons.mp hfirst with heq | hmap
       · subst heq
         simp only [Action.target, Option.some_inj] at hat
         exact Or.inl hat.symm
       · first
         | exact absurd hmap (List.not_mem_nil a)
         | (rw [List.mem_map] at hmap
            obtain ⟨q, hq, hqa⟩ := hmap
            subst hqa
            simp only [Action.target, Option.some_inj] at hat
            exact Or.inr ⟨q.2, enum_snd_mem (List.mem_filter.mp hq).1, hat⟩)
         | (simp only [List.mem_singleton] at hmap
            subst hmap
            simp only [Action.target, Option.some_inj] at hat
            refine Or.inr ⟨sorted.getD 2 default, ?_, hat⟩
            rw [List.getD_eq_getElem sorted default ‹2 < sorted.length›]
            exact List.getElem_mem ‹2 < sorted.length›))
  · split_ifs at hbe <;>
    first
    | exact absurd hbe (List.not_mem_nil a)
    | (simp only [List.mem_singleton] at hbe
       subst hbe
       simp only [Action.target, Option.some_inj] at hat
       exact Or.inl hat.symm)

theorem manageProgressive_target (cfg : Config) (pointValue : ℚ)
    (ps : List Position) (a : Action) (ha : a ∈ manageProgressive cfg pointValue ps)
    (t : Nat) (hat : a.target = some t) :
    ∃ q ∈ ps, q.ticket = t ∧ (strStarts q.comment "PROG_".data = true ∨
      strStarts q.comment "HYBRID_".data = true) := by
  unfold manageProgressive at ha
  rw [List.mem_flatMap] at ha
  obtain ⟨g, hg, hmem⟩ := ha
  split_ifs at hmem with hlen
  · exact absurd hmem (List.not_mem_nil a)
  · rw [List.mem_flatMap] at hmem
    obtain ⟨q, hq, haq⟩ := hmem
    rcases progPositionActions_target cfg pointValue _ _ _ a haq t hat with
      heq | ⟨r, hr, hrt⟩
    · have hmem2 : q.2 ∈ g.2 := sortByNumber_sub _ _ (enum_snd_mem hq)
      obtain ⟨hin, hpre⟩ := progGroups_sub ps g hg q.2 hmem2
      exact ⟨q.2, hin, heq ▸ rfl, hpre⟩
    · have hmem2 : r ∈ g.2 := sortByNumber_sub _ _ hr
      obtain ⟨hin, hpre⟩ := progGroups_sub ps g hg r hmem2
      exact ⟨r, hin, hrt, hpre⟩

theorem trailingNewSL_some_tsl {cfg : Config} {pv : ℚ} {pos : Position} {s : ℚ}
    (h : trailingNewSL cfg pv pos = some s) :
    strStarts pos.comment "TSL_".data = true := by
  unfold trailingNewSL at h
  by_cases hc : ¬ (strStarts pos.comment "TSL_".data = true)
  · rw [if_pos hc] at h
    exact absurd h (by simp)
  · simpa using hc

theorem manageTrailingSL_target (cfg : Config) (pointValue : ℚ)
    (ps : List Position) (a : Action) (ha : a ∈ manageTrailingSL cfg pointValue ps)
    (t : Nat) (hat : a.target = some t) :
    ∃ q ∈ ps, q.ticket = t ∧ strStarts q.comment "TSL_".data = true := by
  unfold manageTrailingSL at ha
  rw [List.mem_flatMap] at ha
  obtain ⟨pos, hpos, hmem⟩ := ha
  revert hmem
  cases hemit : trailingNewSL cfg pointValue pos with
  | none =>
    intro hmem
    exact absurd hmem (List.not_mem_nil a)
  | some s =>
    intro hmem
    simp only [List.mem_singleton] at hmem
    subst hmem
    simp only [Action.target, Option.some_inj] at hat
    exact ⟨pos, hpos, hat, trailingNewSL_some_tsl hemit⟩

theorem addLayerActions_target (cfg : Config) (pointValue : ℚ) (tick : Tick)
    (setupId : List Char) (isBuy : Bool) (layerNum : Nat) (a : Action)
    (ha : a ∈ addLayerActions cfg pointValue tick setupId isBuy layerNum) :
    a.target = none := by
  unfold addLayerActions at ha
  rw [List.mem_map] at ha
  obtain ⟨i, _, hia⟩ := ha
  subst hia
  rfl

theorem adjustTakeProfits_target (cfg : Config) (pointValue : ℚ)
    (ps : List Position) (a : Action) (ha : a ∈ adjustTakeProfits cfg pointValue ps)
    (t : Nat) (hat : a.target = some t) : ∃ q ∈ ps, q.ticket = t := by
  unfold adjustTakeProfits at ha
  rcases List.mem_append.mp ha with hb | hs
  · split_ifs at hb with hn
    · exact absurd hb (List.not_mem_nil a)
    · rw [List.mem_map] at hb
      obtain ⟨q, hq, hqa⟩ := hb
      subst hqa
      simp only [Action.target, Option.some_inj] at hat
      exact ⟨q, (List.mem_filter.mp hq).1, hat⟩
  · split_ifs at hs with hn
    · exact absurd hs (List.not_mem_nil a)
    · rw [List.mem_map] at hs
      obtain ⟨q, hq, hqa⟩ := hs
      subst hqa
      simp only [Action.target, Option.some_inj] at hat
      exact ⟨q, (List.mem_filter.mp hq).1, hat⟩

theorem ddlGroups_sub (defaultKey : List Char) (ps : List Position) :
    ∀ g ∈ ddlGroups defaultKey ps, ∀ q ∈ g.2, q ∈ ps := by
  suffices aux : ∀ (l : List Position)
      (acc : List (List Char × List Position)),
      (∀ g ∈ acc, ∀ q ∈ g.2, q ∈ ps) →
      (∀ p ∈ l, p ∈ ps) →
      ∀ g ∈ l.foldl
        (fun acc p =>
          let parts := splitOnSep '_' p.comment
          if 2 ≤ parts.length ∧ (parts.getD 0 []) ∈
              ["ACE".data, "PROG".data, "TSL".data, "EXIT".data] then
            insertGroup (parts.getD 1 []) p acc
          else acc.map (fun kl => if kl.1 = defaultKey then (kl.1, kl.2 ++ [p]) else kl))
        acc,
      ∀ q ∈ g.2, q ∈ ps by
    intro g hg q hq
    exact aux ps [(defaultKey, [])] (by simp) (fun p hp => hp) g hg q hq
  intro l
  induction l with
  | nil =>
    intro acc hacc _ g hg q hq
    exact hacc g hg q hq
  | cons p t ih =>
    intro acc hacc hsub g hg q hq
    simp only [List.foldl_cons] at hg
    by_cases hc : 2 ≤ (splitOnSep '_' p.comment).length ∧
        ((splitOnSep '_' p.comment).getD 0 []) ∈
          ["ACE".data, "PROG".data, "TSL".data, "EXIT".data]
    · rw [if_pos hc] at hg
      refine ih _ ?_ (fun x hx => hsub x (List.mem_cons_of_mem _ hx)) g hg q hq
      intro g' hg' q' hq'
      rcases insertGroup_mem_sub acc g' hg' q' hq' with heq | ⟨g'', hg'', hq''⟩
      · exact heq ▸ hsub p (List.mem_cons_self ..)
      · exact hacc g'' hg'' q' hq''
    · rw [if_neg hc] at hg
      refine ih _ ?_ (fun x hx => hsub x (List.mem_cons_of_mem _ hx)) g hg q hq
      intro g' hg' q' hq'
      rw [List.mem_map] at hg'
      obtain ⟨g'', hg'', hgg⟩ := hg'
      subst hgg
      by_cases hk : g''.1 = defaultKey
      · rw [if_pos hk] at hq'
        simp only at hq'
        rcases List.mem_append.mp hq' with hl | hr
        · exact hacc g'' hg'' q' hl
        · simp only [List.mem_singleton] at hr
          exact hr ▸ hsub p (List.mem_cons_self ..)
      · rw [if_neg hk] at hq'
        exact hacc g'' hg'' q' hq'

theorem mem_option_elim_layers {o : Option Nat} {f : Nat → List Action}
    {a : Action} (h : a ∈ o.elim [] f) : ∃ l, o = some l ∧ a ∈ f l := by
  cases o with
  | none => exact absurd h (List.not_mem_nil a)
  | some l => exact ⟨l, rfl, h⟩

theorem ddlGroupActions_target (cfg : Config) (pointValue : ℚ) (tick : Tick)
    (isBuy : Bool) (setupId : List Char) (group : List Position) (a : Action)
    (ha : a ∈ ddlGroupActions cfg pointValue tick isBuy setupId group)
    (t : Nat) (hat : a.target = some t) : ∃ q ∈ group, q.ticket = t := by
  simp only [ddlGroupActions] at ha
  split_ifs at ha <;>
  first
  | exact absurd ha (List.not_mem_nil a)
  | (obtain ⟨layerNum, _, hmem⟩ := mem_option_elim_layers ha
     rcases List.mem_append.mp hmem with hopen | hadj
     · have := addLayerActions_target cfg pointValue tick setupId isBuy
         layerNum a hopen
       rw [this] at hat
       exact absurd hat (by simp)
     · exact adjustTakeProfits_target cfg pointValue group a hadj t hat)

theorem manageDrawdownLayers_target (cfg : Config) (pointValue : ℚ)
    (tick : Tick) (symbol : List Char) (ps : List Position) (a : Action)
    (ha : a ∈ manageDrawdownLayers cfg pointValue tick symbol ps)
    (t : Nat) (hat : a.target = some t) : ∃ q ∈ ps, q.ticket = t := by
  unfold manageDrawdownLayers at ha
  split_ifs at ha with hn
  · exact absurd ha (List.not_mem_nil a)
  · rw [List.mem_flatMap] at ha
    obtain ⟨dir, hdir, hmem⟩ := ha
    split_ifs at hmem <;>
    first
    | exact absurd hmem (List.not_mem_nil a)
    | (simp only [] at hmem
       rw [List.mem_flatMap] at hmem
       obtain ⟨g, hg, hga⟩ := hmem
       obtain ⟨q, hq, hqt⟩ := ddlGroupActions_target cfg pointValue tick dir.2
         g.1 g.2 a hga t hat
       have hq' : q ∈ dir.1 := ddlGroups_sub _ dir.1 g hg q hq
       have hsub : dir.1 ⊆ ps := by
         rcases List.mem_cons.mp hdir with heq | hd2
         · rw [heq]
           exact fun x hx => (List.mem_filter.mp hx).1
         · simp only [List.mem_singleton] at hd2
           rw [hd2]
           exact fun x hx => (List.mem_filter.mp hx).1
       exact ⟨q, hsub hq', hqt⟩)

theorem ddDispatch_target (cfg : Config) (pointValue : ℚ) (tick : Tick)
    (symbol : List Char) (ps : List Position)
    (hhybrid : ¬ (cfg.enable_progressive = true ∧
      cfg.enable_drawdown_layering = true))
    (a : Action) (ha : a ∈ ddDispatch cfg pointValue tick symbol ps)
    (t : Nat) (hat : a.target = some t) :
    ∃ q ∈ ps, q.ticket = t ∧ (strStarts q.comment "ACE_".data = true ∨
      strStarts q.comment "DDL_".data = true) := by
  unfold ddDispatch at ha
  by_cases hdd : cfg.enable_drawdown_layering = true
  · rw [if_pos hdd, if_neg hhybrid] at ha
    simp only [] at ha
    split at ha
    · obtain ⟨q, hq, hqt⟩ :=
        manageDrawdownLayers_target cfg pointValue tick symbol _ a ha t hat
      obtain ⟨hqin, hqpre⟩ := List.mem_filter.mp hq
      exact ⟨q, hqin, hqt, by simpa using hqpre⟩
    · exact absurd ha (List.not_mem_nil a)
  · rw [if_neg hdd] at ha
    exact absurd ha (List.not_mem_nil a)

/-! ## C5 -/

def c5cfg : Config :=
  { c10cfg with
    strategy_type := ("manual".data),
    tp_points := 50 }

def c5pos : Position :=
  { ticket := 7, symbol := "EURUSD".data, ptype := 0, volume := 0.01,
    price_open := 100, price_current := 101, sl := 0, tp := 0,
    profit := 1, swap := 0, comment := [] }

def c5env : ExitEnv :=
  { histLenFor := fun _ => 10, emaCrossedMidline := fun _ => false }

/-- C5 counterexample: a position whose comment is empty — it carries no
strategy prefix, so no engine parses it — but whose take profit is `0` is
*not* left untouched by `manage_positions`: the final loop of `app.py`
lines 812-823 emits `ModifyTakeProfit` for it even with every strategy
engine disabled. -/
theorem unmanaged_zero_tp_position_modified :
    managePositions c5cfg 1 ⟨100, 100.2⟩ c5env "EURUSD".data [c5pos] =
      [Action.modifyTakeProfit 7 150] ∧
    (Action.modifyTakeProfit 7 150).target = some c5pos.ticket ∧
    c5pos.comment = [] := by
  refine ⟨?_, rfl, rfl⟩
  have hstrat : c5cfg.strategy_type = "manual".data := rfl
  have htp : c5cfg.tp_points = 50 := rfl
  have hprog : c5cfg.enable_progressive = false := rfl
  have htr : c5cfg.enable_trailing_sl = false := rfl
  have hdd : c5cfg.enable_drawdown_layering = false := rfl
  norm_num +decide [managePositions, strStarts, c5pos, hstrat, htp, hprog,
    htr, hdd, List.filter_cons, List.filterMap_cons]

def c5mcfg : Config :=
  { c10cfg with
    strategy_type := ("manual".data),
    tp_points := 90,
    enable_progressive := true }

def c5mBad : Position :=
  { ticket := 18, symbol := "XAUUSD".data, ptype := 0, volume := 1,
    price_open := 1000, price_current := 1010, sl := 900, tp := 1090,
    profit := 10, swap := 0, comment := "PROG_S".data }

def c5mMate : Position :=
  { c5mBad with
    ticket := 19, comment := "PROG_S_2".data }

/-- C5 (amended): the bucket `manage_positions` actually leaves unmanaged
is the set of positions whose comments carry *none* of the recognized
strategy prefixes — not the set of comments failing the full tag grammar.
First conjunct: a position whose comment carries no recognized prefix
receives no close or stop/target modify in a management cycle *provided
that* (a) the configured strategy is not `exit_signal_or_max_tp` (that
engine processes all of the symbol's positions regardless of comment),
(b) the hybrid progressive + drawdown mode is not active (it passes the
whole book to the drawdown engine), and (c) the position's take profit is
nonzero (the engine sets a take profit on any position with `tp == 0`,
parseable or not — see the counterexample).  Second conjunct: merely
failing the tag grammar is *not* enough — the prefixed-but-malformed
comment `PROG_S` has only two `_`-parts, hence no position index, so
`manage_progressive_positions` (`app.py` lines 858-869) assigns it
position number `0`, giving it a per-position target of `0` points, and
closes it at any non-negative profit even though conditions (a), (b) and
(c) all hold. -/
theorem unmanaged_position_untouched :
    (∀ (cfg : Config) (pointValue : ℚ) (tick : Tick) (env : ExitEnv)
        (symbol : List Char) (ps : List Position) (p : Position),
      ¬ cfg.strategy_type = "exit_signal_or_max_tp".data →
      ¬ (cfg.enable_progressive = true ∧
        cfg.enable_drawdown_layering = true) →
      p ∈ ps →
      lacksStrategyTag p.comment →
      ¬ p.tp = 0 →
      (∀ q ∈ ps, q.ticket = p.ticket → q = p) →
      ∀ a ∈ managePositions cfg pointValue tick env symbol ps,
        ¬ a.target = some p.ticket) ∧
    (managePositions c5mcfg 1 ⟨1010, 1011⟩ c5env "XAUUSD".data
        [c5mBad, c5mMate] =
      [Action.closePosition 18, Action.modifyStopLoss 19 1000] ∧
    (Action.closePosition 18).target = some c5mBad.ticket ∧
    (splitOnSep '_' c5mBad.comment).length = 2 ∧
    ¬ c5mBad.tp = 0 ∧
    ¬ c5mcfg.strategy_type = "exit_signal_or_max_tp".data ∧
    ¬ (c5mcfg.enable_progressive = true ∧
      c5mcfg.enable_drawdown_layering = true)) := by
  constructor
  · intro cfg pointValue tick env symbol ps p hstrat hhybrid hps hgram htp
      huniq a ha hat
    obtain ⟨hP, hH, hT, hA, hD, hE⟩ := hgram
    have hnil : ¬ ps = [] := by
      intro h
      rw [h] at hps
      exact absurd hps (List.not_mem_nil p)
    unfold managePositions at ha
    rw [if_neg hnil, if_neg hstrat] at ha
    simp only [] at ha
    rcases List.mem_append.mp ha with ha1 | htpl
    · rcases List.mem_append.mp ha1 with ha2 | hddl
      · rcases List.mem_append.mp ha2 with ha3 | htrl
        · rcases List.mem_append.mp ha3 with hexit | hprogm
          · exact absurd hexit (List.not_mem_nil a)
          · split at hprogm
            · obtain ⟨q, hq, hqt, hqpre⟩ :=
                manageProgressive_target cfg pointValue _ a hprogm p.ticket hat
              obtain ⟨hqin, _⟩ := List.mem_filter.mp hq
              have := huniq q hqin hqt
              subst this
              rcases hqpre with h | h
              · exact absurd h (by rw [hP]; simp)
              · exact absurd h (by rw [hH]; simp)
            · exact absurd hprogm (List.not_mem_nil a)
        · split at htrl
          · obtain ⟨q, hq, hqt, hqpre⟩ :=
              manageTrailingSL_target cfg pointValue _ a htrl p.ticket hat
            obtain ⟨hqin, _⟩ := List.mem_filter.mp hq
            have := huniq q hqin hqt
            subst this
            exact absurd hqpre (by rw [hT]; simp)
          · exact absurd htrl (List.not_mem_nil a)
      · obtain ⟨q, hqin, hqt, hqpre⟩ :=
          ddDispatch_target cfg pointValue tick symbol ps hhybrid a hddl
            p.ticket hat
        have := huniq q hqin hqt
        subst this
        rcases hqpre with h | h
        · exact absurd h (by rw [hA]; simp)
        · exact absurd h (by rw [hD]; simp)
    · rw [List.mem_filterMap] at htpl
      obtain ⟨q, hqin, hqa⟩ := htpl
      by_cases hq0 : q.tp = 0
      · rw [if_pos hq0] at hqa
        have hqa' := Option.some_inj.mp hqa
        subst hqa'
        simp only [Action.target, Option.some_inj] at hat
        have := huniq q hqin hat
        subst this
        exact htp hq0
      · rw [if_neg hq0] at hqa
        exact absurd hqa (by simp)
  · refine ⟨?_, rfl, by decide, by norm_num [c5mBad], by decide, by decide⟩
    have hstrat : c5mcfg.strategy_type = "manual".data := rfl
    have htp : c5mcfg.tp_points = 90 := rfl
    have hpps : c5mcfg.positions_per_setup = 3 := rfl
    have hbe : c5mcfg.breakeven_trigger_points = 20 := rfl
    have hprog : c5mcfg.enable_progressive = true := rfl
    have htr : c5mcfg.enable_trailing_sl = false := rfl
    have hdd : c5mcfg.enable_drawdown_layering = false := rfl
    have hd2 : Char.toNat '2' = 50 := rfl
    norm_num +decide [managePositions, manageProgressive, progGroups,
      insertGroup, sortByNumber, insertByNumber, positionNumberOf, parseInt,
      parseNat, parseNatGo, digitVal, splitOnSep, strStarts,
      progPositionActions, ddDispatch, c5mBad, c5mMate, List.enum,
      List.enumFrom, List.filter_cons, List.filterMap_cons, List.foldl_cons,
      List.foldl_nil, List.flatMap_cons, List.flatMap_nil, hstrat, htp, hpps,
      hbe, hprog, htr, hdd, hd2]

def c5wcfg : Config :=
  { c10cfg with
    strategy_type := ("manual".data),
    enable_trailing_sl := true, trailing_tp_points := 100,
    dynamic_checkpoints := 5 }

def c5wUnmanaged : Position :=
  { ticket := 9, symbol := "XAUUSD".data, ptype := 0, volume := 1,
    price_open := 500, price_current := 505, sl := 490, tp := 70,
    profit := 5, swap := 0, comment := "junk".data }

def c5wTsl : Position :=
  { ticket := 8, symbol := "XAUUSD".data, ptype := 0, volume := 1,
    price_open := 1000, price_current := 1047, sl := 0, tp := 1100,
    profit := 47, swap := 0, comment := "TSL_1_1".data }

theorem unmanaged_position_untouched_witness :
    ¬ (Action.modifyStopLoss 8 1026.8).target = some c5wUnmanaged.ticket := by
  have hM : managePositions c5wcfg 1 ⟨1047, 1047.2⟩ c5env "XAUUSD".data
      [c5wUnmanaged, c5wTsl] = [Action.modifyStopLoss 8 1026.8] := by
    have hstrat : c5wcfg.strategy_type = "manual".data := rfl
    have htr : c5wcfg.enable_trailing_sl = true := rfl
    have hprog : c5wcfg.enable_progressive = false := rfl
    have hdd : c5wcfg.enable_drawdown_layering = false := rfl
    have htp : c5wcfg.trailing_tp_points = 100 := rfl
    have hdc : c5wcfg.dynamic_checkpoints = 5 := rfl
    norm_num +decide [managePositions, manageTrailingSL, trailingNewSL,
      trailingComputedSL, lockInOf, currentCheckpoint, List.range_succ,
      strStarts, splitOnSep, c5wUnmanaged, c5wTsl, hstrat, htr, hprog, hdd,
      htp, hdc, List.filter_cons, List.filterMap_cons, List.flatMap_cons,
      List.flatMap_nil]
  refine (unmanaged_position_untouched).1 c5wcfg 1 ⟨1047, 1047.2⟩ c5env
    "XAUUSD".data [c5wUnmanaged, c5wTsl] c5wUnmanaged (by decide) (by decide)
    (List.mem_cons_self ..) (by unfold lacksStrategyTag; decide)
    (by norm_num [c5wUnmanaged]) ?_ (Action.modifyStopLoss 8 1026.8) ?_
  · intro q hq h
    rcases List.mem_cons.mp hq with h1 | h1
    · exact h1
    · simp only [List.mem_singleton] at h1
      subst h1
      exact absurd h (by decide)
  · rw [hM]
    exact List.mem_singleton.mpr rfl

end TradingBotSpec
